import Mathlib

/-!
Verification of the node-swatch color engine.

A shallow embedding of `src/utils/colorUtils.js` and
`src/services/colorGenerator.js`.  JavaScript numbers are modelled as
rationals (`ℚ`), `Math.round` as `⌊x + 1/2⌋`, and the random generator
as an explicit oracle `ℕ → Hsl` threaded through `generatePalette`.
-/

set_option maxHeartbeats 1000000
set_option maxRecDepth 4000

/-- `Rat.floor` agrees with the mathematical floor. -/
theorem ratFloor_eq (q : ℚ) : Rat.floor q = ⌊q⌋ := by
  rw [Rat.floor_def', ← Rat.floor_def]

/-- JavaScript `Math.round`: round half toward positive infinity. -/
def jsRound (x : ℚ) : ℤ := Rat.floor (x + 1/2)

/-- JavaScript truncation toward zero (used by the `%` operator). -/
def jsTrunc (x : ℚ) : ℤ := if x < 0 then -(Rat.floor (-x)) else Rat.floor x

theorem jsRound_def (x : ℚ) : jsRound x = ⌊x + 1/2⌋ := by
  rw [jsRound, ratFloor_eq]

theorem jsTrunc_def (x : ℚ) :
    jsTrunc x = if x < 0 then -⌊-x⌋ else ⌊x⌋ := by
  rw [jsTrunc, ratFloor_eq, ratFloor_eq]

/-- JavaScript `%` on numbers: remainder with the sign of the dividend,
`x % y = x - y * trunc (x / y)`. -/
def jsMod (x y : ℚ) : ℚ := x - y * jsTrunc (x / y)

/-- An HSL color as produced by the conversion module: `h` in degrees,
`s` and `l` in percent (JS numbers, hence rationals here). -/
structure Hsl where
  h : ℚ
  s : ℚ
  l : ℚ
deriving DecidableEq, Repr, Inhabited

/-- An RGB color with channels as JS numbers. -/
structure Rgb where
  r : ℚ
  g : ℚ
  b : ℚ
deriving DecidableEq, Repr, Inhabited

/-! ## `colorUtils.js`: RGB ↔ HSL conversion -/

/-- The hue fraction (in `[0,1)`) computed by `rgbToHsl` on channels
already normalized to `[0,1]`; mirrors the `switch (max)` statement,
whose cases are tried in source order `r`, `g`, `b`. -/
def hueFrac (r g b : ℚ) : ℚ :=
  let mx := max r (max g b)
  let mn := min r (min g b)
  if mx = mn then 0
  else
    let d := mx - mn
    if mx = r then ((g - b) / d + (if g < b then 6 else 0)) / 6
    else if mx = g then ((b - r) / d + 2) / 6
    else ((r - g) / d + 4) / 6

/-- The saturation fraction computed by `rgbToHsl` on normalized channels. -/
def satFrac (r g b : ℚ) : ℚ :=
  let mx := max r (max g b)
  let mn := min r (min g b)
  if mx = mn then 0
  else
    let d := mx - mn
    let l := (mx + mn) / 2
    if l > 1/2 then d / (2 - mx - mn) else d / (mx + mn)

/-- The lightness fraction computed by `rgbToHsl` on normalized channels. -/
def lumFrac (r g b : ℚ) : ℚ :=
  let mx := max r (max g b)
  let mn := min r (min g b)
  (mx + mn) / 2

/-- `rgbToHsl(r, g, b)`: channels are divided by 255, converted by the
standard min/max formula, and the three results are scaled to
degrees/percent and rounded with `Math.round`. -/
def rgbToHsl (r g b : ℚ) : Hsl :=
  { h := (jsRound (hueFrac (r / 255) (g / 255) (b / 255) * 360) : ℤ)
    s := (jsRound (satFrac (r / 255) (g / 255) (b / 255) * 100) : ℤ)
    l := (jsRound (lumFrac (r / 255) (g / 255) (b / 255) * 100) : ℤ) }

/-- The first wrap of `hue2rgb`: `if (t < 0) t += 1`. -/
def wrap1 (t : ℚ) : ℚ := if t < 0 then t + 1 else t

/-- The second wrap of `hue2rgb`: `if (t > 1) t -= 1`. -/
def wrap2 (t : ℚ) : ℚ := if t > 1 then t - 1 else t

/-- The `hue2rgb(p, q, t)` helper of `hslToRgb`: wrap `t` into `[0,1]`,
then pick among four linear segments. -/
def hue2rgb (p q t : ℚ) : ℚ :=
  if wrap2 (wrap1 t) < 1/6 then p + (q - p) * 6 * wrap2 (wrap1 t)
  else if wrap2 (wrap1 t) < 1/2 then q
  else if wrap2 (wrap1 t) < 2/3 then p + (q - p) * (2/3 - wrap2 (wrap1 t)) * 6
  else p

/-- The intermediate `q` of `hslToRgb` as a function of normalized
saturation and lightness. -/
def qF (s l : ℚ) : ℚ := if l < 1/2 then l * (1 + s) else l + s - l * s

/-- The intermediate `p = 2l - q` of `hslToRgb`. -/
def pF (s l : ℚ) : ℚ := 2 * l - qF s l

/-- `hslToRgb(h, s, l)`: normalize the inputs, handle the achromatic
case, otherwise apply `hue2rgb` at offsets `+1/3, 0, -1/3`; scale to
`[0,255]` and round. -/
def hslToRgb (h s l : ℚ) : Rgb :=
  if s / 100 = 0 then
    { r := (jsRound (l / 100 * 255) : ℤ)
      g := (jsRound (l / 100 * 255) : ℤ)
      b := (jsRound (l / 100 * 255) : ℤ) }
  else
    { r := (jsRound (hue2rgb (pF (s / 100) (l / 100)) (qF (s / 100) (l / 100))
        (h / 360 + 1/3) * 255) : ℤ)
      g := (jsRound (hue2rgb (pF (s / 100) (l / 100)) (qF (s / 100) (l / 100))
        (h / 360) * 255) : ℤ)
      b := (jsRound (hue2rgb (pF (s / 100) (l / 100)) (qF (s / 100) (l / 100))
        (h / 360 - 1/3) * 255) : ℤ) }

/-- `normalizeHue(hue)`: reduce into `[0,360)` by the double-modulo
`((hue % 360) + 360) % 360`. -/
def normalizeHue (hue : ℚ) : ℚ := jsMod (jsMod hue 360 + 360) 360

example : rgbToHsl 255 100 101 = ⟨360, 100, 70⟩ := by with_unfolding_all decide
example : rgbToHsl 52 152 219 = ⟨204, 70, 53⟩ := by with_unfolding_all decide
example : hslToRgb 204 70 53 = ⟨51, 152, 219⟩ := by with_unfolding_all decide
example : rgbToHsl 2 228 230 = ⟨181, 98, 45⟩ := by with_unfolding_all decide
example : hslToRgb 181 98 45 = ⟨2, 223, 227⟩ := by with_unfolding_all decide
example : normalizeHue (-30) = 330 := by with_unfolding_all decide

/-! ## Properties of `normalizeHue` -/

theorem jsMod_eval (x y : ℚ) : jsMod x y = x - y * jsTrunc (x / y) := rfl

/-- The double modulo computes the mathematical residue:
`normalizeHue x = 360 * fract (x / 360)`. -/
theorem normalizeHue_eq_fract (x : ℚ) :
    normalizeHue x = 360 * Int.fract (x / 360) := by
  have h360 : (360 : ℚ) ≠ 0 := by norm_num
  unfold normalizeHue
  rw [jsMod_eval, jsMod_eval, jsTrunc_def, jsTrunc_def]
  set z := x / 360 with hz
  have hx : x = 360 * z := by rw [hz]; field_simp
  rcases lt_or_le z 0 with hneg | hpos
  · -- negative dividend: the inner `%` truncates toward zero, i.e. ceiling
    have h1 : ¬ (z < 0 → False) := by simp [hneg]
    rw [if_pos hneg]
    have hceil : -⌊-z⌋ = ⌈z⌉ := by rw [Int.floor_neg]; ring
    rw [hceil]
    have hr1 : x - 360 * (⌈z⌉ : ℚ) = 360 * (z - ⌈z⌉) := by rw [hx]; ring
    rw [hr1]
    have harg : (360 * (z - ⌈z⌉) + 360) / 360 = z - ⌈z⌉ + 1 := by field_simp; ring
    rw [harg]
    have hge : (0 : ℚ) ≤ z - ⌈z⌉ + 1 := by
      have := Int.ceil_lt_add_one z
      linarith
    rw [if_neg (by linarith)]
    have hfl : ⌊z - (⌈z⌉ : ℚ) + 1⌋ = ⌊z⌋ - ⌈z⌉ + 1 := by
      rw [show z - (⌈z⌉ : ℚ) + 1 = z + (-⌈z⌉ + 1 : ℤ) by push_cast; ring,
        Int.floor_add_int]
      ring
    rw [hfl, Int.fract]
    push_cast
    ring
  · -- nonnegative dividend
    rw [if_neg (by linarith)]
    have hr1 : x - 360 * (⌊z⌋ : ℚ) = 360 * Int.fract z := by
      rw [hx, Int.fract]; ring
    rw [hr1]
    have harg : (360 * Int.fract z + 360) / 360 = Int.fract z + 1 := by
      field_simp; ring
    rw [harg]
    have hfr0 : (0 : ℚ) ≤ Int.fract z := Int.fract_nonneg z
    rw [if_neg (by linarith)]
    have hfl : ⌊Int.fract z + 1⌋ = 1 := by
      rw [show Int.fract z + 1 = Int.fract z + (1 : ℤ) by push_cast; ring,
        Int.floor_add_int, Int.floor_fract]
      norm_num
    rw [hfl]
    push_cast
    ring

theorem normalizeHue_nonneg (x : ℚ) : 0 ≤ normalizeHue x := by
  rw [normalizeHue_eq_fract]
  have := Int.fract_nonneg (x / 360)
  linarith

theorem normalizeHue_lt_360 (x : ℚ) : normalizeHue x < 360 := by
  rw [normalizeHue_eq_fract]
  have := Int.fract_lt_one (x / 360)
  linarith

theorem normalizeHue_add_360 (x : ℚ) :
    normalizeHue (x + 360) = normalizeHue x := by
  rw [normalizeHue_eq_fract, normalizeHue_eq_fract]
  have : (x + 360) / 360 = x / 360 + (1 : ℤ) := by push_cast; field_simp
  rw [this, Int.fract_add_int]

/-! ## `colorUtils.js`: hex strings -/

/-- Hex digit reading inside the modelled `parseInt(·, 16)`. -/
def hexDigitVal? (c : Char) : Option ℕ :=
  if c = '0' then some 0 else if c = '1' then some 1
  else if c = '2' then some 2 else if c = '3' then some 3
  else if c = '4' then some 4 else if c = '5' then some 5
  else if c = '6' then some 6 else if c = '7' then some 7
  else if c = '8' then some 8 else if c = '9' then some 9
  else if c = 'a' then some 10 else if c = 'b' then some 11
  else if c = 'c' then some 12 else if c = 'd' then some 13
  else if c = 'e' then some 14 else if c = 'f' then some 15
  else if c = 'A' then some 10 else if c = 'B' then some 11
  else if c = 'C' then some 12 else if c = 'D' then some 13
  else if c = 'E' then some 14 else if c = 'F' then some 15
  else none

/-- Whitespace skipped by `parseInt`. -/
def isJsSpace (c : Char) : Bool :=
  c = ' ' || c = '\t' || c = '\n' || c = '\r'

/-- Digit-sequence reading shared by the `parseInt` models: take the
longest digit prefix; no digits means `NaN` (`none`). -/
def readDigits (base : ℤ) (dig? : Char → Option ℕ) (sgn : ℤ)
    (s : List Char) : Option ℤ :=
  let ds := s.takeWhile (fun c => (dig? c).isSome)
  if ds.isEmpty then none
  else some (sgn * ds.foldl (fun a c => base * a + ((dig? c).getD 0 : ℤ)) 0)

/-- The sign read by `parseInt` after whitespace skipping. -/
def jsSign (s : List Char) : ℤ := if s.head? = some '-' then -1 else 1

/-- Drop the optional sign character read by `parseInt`. -/
def jsDropSign (s : List Char) : List Char :=
  if s.head? = some '-' ∨ s.head? = some '+' then s.tail else s

/-- Drop the optional `0x`/`0X` prefix accepted in hex mode. -/
def jsStrip0x (s : List Char) : List Char :=
  if s.take 2 = ['0', 'x'] ∨ s.take 2 = ['0', 'X'] then s.drop 2 else s

/-- Modelled JS `parseInt(s, 16)`: skip whitespace, read an optional
sign, drop an optional `0x`/`0X` prefix, then read the longest hex-digit
prefix. -/
def jsParseIntHex (s : List Char) : Option ℤ :=
  readDigits 16 hexDigitVal? (jsSign (s.dropWhile isJsSpace))
    (jsStrip0x (jsDropSign (s.dropWhile isJsSpace)))

/-- ECMAScript `ToInt32` applied to a possibly-`NaN` parse result:
`NaN` maps to 0, other values are reduced mod `2^32` into
`[-2^31, 2^31)`. -/
def toInt32 (v : Option ℤ) : ℤ :=
  match v with
  | none => 0
  | some n =>
    let m := n % 4294967296
    if m < 2147483648 then m else m - 4294967296

/-- JS `x >> n` on an int32 value: arithmetic shift, i.e. floor division
by `2^n`. -/
def shr (a : ℤ) (n : ℕ) : ℤ := Int.fdiv a (2 ^ n)

/-- JS `x & 255` on an int32 value: the low byte of the two's-complement
representation. -/
def maskByte (a : ℤ) : ℤ := a % 4294967296 % 256

/-- `hex.replace(/^#/, '')`: strip at most one leading `#`. -/
def stripHash (s : List Char) : List Char :=
  if s.head? = some '#' then s.tail else s

/-- `hexToRgb(hex)`: strip a leading `#`, parse the rest as a hex
integer, and extract the channels by bit shifts and masks. -/
def hexToRgb (hex : String) : Rgb :=
  let bigint := toInt32 (jsParseIntHex (stripHash hex.data))
  { r := (maskByte (shr bigint 16) : ℤ)
    g := (maskByte (shr bigint 8) : ℤ)
    b := (maskByte bigint : ℤ) }

/-- The `toHex` helper of `rgbToHex`: clamp into `[0,255]`, round,
format base-16 (lowercase), zero-pad to two digits. -/
def toHexPair (n : ℚ) : List Char :=
  let m := jsRound (max 0 (min 255 n))
  let ds := Nat.toDigits 16 m.toNat
  if ds.length = 1 then '0' :: ds else ds

/-- `rgbToHex(r, g, b)`. -/
def rgbToHex (r g b : ℚ) : String :=
  String.mk ('#' :: (toHexPair r ++ toHexPair g ++ toHexPair b))

/-- `hexToHsl(hex)`. -/
def hexToHsl (hex : String) : Hsl :=
  let c := hexToRgb hex
  rgbToHsl c.r c.g c.b

/-- `hslToHex(h, s, l)`. -/
def hslToHex (h s l : ℚ) : String :=
  let c := hslToRgb h s l
  rgbToHex c.r c.g c.b

/-- `getContrastColor(hex)`: perceptual luminance against threshold 0.5. -/
def getContrastColor (hex : String) : String :=
  let c := hexToRgb hex
  let luminance := (0.299 * c.r + 0.587 * c.g + 0.114 * c.b) / 255
  if luminance > 0.5 then "#000000" else "#ffffff"

example : hexToRgb "#3498db" = ⟨52, 152, 219⟩ := by with_unfolding_all decide
example : hexToRgb "3498DB" = ⟨52, 152, 219⟩ := by with_unfolding_all decide
example : hexToRgb "zz" = ⟨0, 0, 0⟩ := by with_unfolding_all decide
example : rgbToHex 52 152 219 = "#3498db" := by with_unfolding_all decide
example : hslToHex 204 70 53 = "#3398db" := by with_unfolding_all decide
example : getContrastColor "#000000" = "#ffffff" := by with_unfolding_all decide
example : getContrastColor "#ffffff" = "#000000" := by with_unfolding_all decide

/-! ## `colorGenerator.js` -/

/-- `HARMONY_TYPES`. -/
def HARMONY_TYPES : List String :=
  ["complementary", "analogous", "triadic", "split-complementary",
    "tetradic", "monochromatic", "square", "double-complementary",
    "custom", "random"]

/-- Decimal digit reading for the modelled no-radix `parseInt`. -/
def decDigitVal? (c : Char) : Option ℕ :=
  if c = '0' then some 0 else if c = '1' then some 1
  else if c = '2' then some 2 else if c = '3' then some 3
  else if c = '4' then some 4 else if c = '5' then some 5
  else if c = '6' then some 6 else if c = '7' then some 7
  else if c = '8' then some 8 else if c = '9' then some 9
  else none

/-- Modelled JS `parseInt(s)` with no radix argument: decimal, except
that a `0x`/`0X` prefix switches to hex. -/
def jsParseIntAuto (s : List Char) : Option ℤ :=
  if (jsDropSign (s.dropWhile isJsSpace)).take 2 = ['0', 'x'] ∨
      (jsDropSign (s.dropWhile isJsSpace)).take 2 = ['0', 'X'] then
    readDigits 16 hexDigitVal? (jsSign (s.dropWhile isJsSpace))
      ((jsDropSign (s.dropWhile isJsSpace)).drop 2)
  else
    readDigits 10 decDigitVal? (jsSign (s.dropWhile isJsSpace))
      (jsDropSign (s.dropWhile isJsSpace))

/-- The `count` field of the configuration object: a number, a string
(as a query parameter would deliver it), or absent. -/
inductive CountInput where
  | num (n : ℤ)
  | str (s : String)
  | missing
deriving DecidableEq, Repr

/-- `parseInt(count)` after destructuring: numbers stringify and reparse
to themselves, a missing count was already defaulted to the number 5. -/
def parseCount : CountInput → Option ℤ
  | .num n => some n
  | .str s => jsParseIntAuto s.data
  | .missing => some 5

/-- `Math.max(2, Math.min(6, parseInt(count) || 5))`; `NaN` and `0` are
falsy, so both fall back to 5 before clamping. -/
def colorCount (c : CountInput) : ℕ :=
  let v : ℤ := match parseCount c with
    | none => 5
    | some n => if n = 0 then 5 else n
  (max 2 (min 6 v)).toNat

/-- The configuration object accepted by `generatePalette`; absent
fields are `none`/`missing` and the JS destructuring defaults fill
them in. -/
structure PaletteOptions where
  harmony : Option String := none
  count : CountInput := .missing
  baseColor : Option String := none
  angle : Option ℚ := none

/-- One entry of the `colors` array of a palette. -/
structure PaletteColor where
  hex : String
  hsl : Hsl
  role : String
deriving DecidableEq, Repr, Inhabited

/-- The object returned by `generatePalette`. -/
structure Palette where
  harmony : String
  count : ℕ
  baseColor : String
  colors : List PaletteColor
deriving DecidableEq, Repr

/-- The `while (colors.length < count)` overflow loop shared by the
anchor strategies: each iteration pushes one derived color. -/
def fillColors (step : List Hsl → Hsl) (count : ℕ) (colors : List Hsl) :
    List Hsl :=
  if h : colors.length < count then
    fillColors step count (colors ++ [step colors])
  else colors
termination_by count - colors.length
decreasing_by
  simp only [List.length_append, List.length_cons, List.length_nil]
  omega

/-- `generateComplementary`. -/
def generateComplementary (baseHsl : Hsl) (count : ℕ) : List Hsl :=
  let complement : Hsl := { baseHsl with h := normalizeHue (baseHsl.h + 180) }
  (fillColors
    (fun colors =>
      let variation := if colors.length % 2 = 0 then baseHsl else complement
      { h := variation.h
        s := max 20 (variation.s - (colors.length : ℚ) * 10)
        l := min 80 (variation.l + (colors.length : ℚ) * 8) })
    count [baseHsl, complement]).take count

/-- `generateAnalogous`. -/
def generateAnalogous (baseHsl : Hsl) (count : ℕ) : List Hsl :=
  (baseHsl :: (List.range' 1 (count - 1)).map (fun (i : ℕ) =>
    let direction : ℚ := if i % 2 = 1 then 1 else -1
    let steps : ℕ := (i + 1) / 2
    { h := normalizeHue (baseHsl.h + 30 * steps * direction)
      s := max 30 (baseHsl.s - (i : ℚ) * 5)
      l := max 25 (min 75 (baseHsl.l + (((i % 3 : ℕ) : ℚ) - 1) * 10)) })).take count

/-- `generateTriadic`. -/
def generateTriadic (baseHsl : Hsl) (count : ℕ) : List Hsl :=
  (fillColors
    (fun colors =>
      let base := colors.getD (colors.length % 3) default
      { h := base.h, s := max 30 (base.s - 15), l := min 75 (base.l + 15) })
    count
    [baseHsl, { baseHsl with h := normalizeHue (baseHsl.h + 120) },
      { baseHsl with h := normalizeHue (baseHsl.h + 240) }]).take count

/-- `generateSplitComplementary`. -/
def generateSplitComplementary (baseHsl : Hsl) (count : ℕ) : List Hsl :=
  (fillColors
    (fun colors =>
      let base := colors.getD (colors.length % 3) default
      { h := base.h, s := max 30 (base.s - 20), l := min 80 (base.l + 10) })
    count
    [baseHsl, { baseHsl with h := normalizeHue (baseHsl.h + 150) },
      { baseHsl with h := normalizeHue (baseHsl.h + 210) }]).take count

/-- `generateTetradic`. -/
def generateTetradic (baseHsl : Hsl) (count : ℕ) : List Hsl :=
  (fillColors
    (fun colors =>
      let base := colors.getD (colors.length % 4) default
      { h := base.h, s := max 30 (base.s - 15), l := min 75 (base.l + 12) })
    count
    [baseHsl, { baseHsl with h := normalizeHue (baseHsl.h + 60) },
      { baseHsl with h := normalizeHue (baseHsl.h + 180) },
      { baseHsl with h := normalizeHue (baseHsl.h + 240) }]).take count

/-- `generateMonochromatic`. -/
def generateMonochromatic (baseHsl : Hsl) (count : ℕ) : List Hsl :=
  (baseHsl :: (List.range' 1 (count - 1)).map (fun (i : ℕ) =>
    let lightnessStep : ℚ := 60 / (count : ℚ)
    let saturationVariation : ℚ :=
      (if i % 2 = 0 then (-10 : ℚ) else 10) * (((i + 1) / 2 : ℕ) : ℚ)
    { h := baseHsl.h
      s := max 20 (min 90 (baseHsl.s + saturationVariation))
      l := max 20 (min 80 (20 + (i : ℚ) * lightnessStep)) })).take count

/-- `generateSquare`. -/
def generateSquare (baseHsl : Hsl) (count : ℕ) : List Hsl :=
  (fillColors
    (fun colors =>
      let base := colors.getD (colors.length % 4) default
      { h := base.h, s := max 30 (base.s - 20), l := min 75 (base.l + 15) })
    count
    [baseHsl, { baseHsl with h := normalizeHue (baseHsl.h + 90) },
      { baseHsl with h := normalizeHue (baseHsl.h + 180) },
      { baseHsl with h := normalizeHue (baseHsl.h + 270) }]).take count

/-- `generateDoubleComplementary`. -/
def generateDoubleComplementary (baseHsl : Hsl) (count : ℕ) : List Hsl :=
  (fillColors
    (fun colors =>
      let base := colors.getD (colors.length % 4) default
      { h := base.h, s := max 30 (base.s - 15), l := min 80 (base.l + 10) })
    count
    [baseHsl, { baseHsl with h := normalizeHue (baseHsl.h + 30) },
      { baseHsl with h := normalizeHue (baseHsl.h + 180) },
      { baseHsl with h := normalizeHue (baseHsl.h + 210) }]).take count

/-- `generateCustom`. -/
def generateCustom (baseHsl : Hsl) (count : ℕ) (angle : ℚ) : List Hsl :=
  (baseHsl :: (List.range' 1 (count - 1)).map (fun (i : ℕ) =>
    { h := normalizeHue (baseHsl.h + angle * i)
      s := max 30 (baseHsl.s - (i : ℚ) * 5)
      l := max 25 (min 75 (baseHsl.l + (((i % 3 : ℕ) : ℚ) - 1) * 8)) })).take count

/-- `generateRandom`: the base plus `count - 1` draws from the random
generator, modelled by the oracle `rng` at successive indices. -/
def generateRandom (baseHsl : Hsl) (count : ℕ) (rng : ℕ → Hsl) : List Hsl :=
  baseHsl :: (List.range' 1 (count - 1)).map rng

/-- The `switch (harmony.toLowerCase())` of `generatePalette`, with the
`default` case falling through to the random strategy. -/
def dispatchHarmony (name : String) (baseHsl : Hsl) (count : ℕ)
    (angle : ℚ) (rng : ℕ → Hsl) : List Hsl :=
  if name = "complementary" then generateComplementary baseHsl count
  else if name = "analogous" then generateAnalogous baseHsl count
  else if name = "triadic" then generateTriadic baseHsl count
  else if name = "split-complementary" then generateSplitComplementary baseHsl count
  else if name = "tetradic" then generateTetradic baseHsl count
  else if name = "monochromatic" then generateMonochromatic baseHsl count
  else if name = "square" then generateSquare baseHsl count
  else if name = "double-complementary" then generateDoubleComplementary baseHsl count
  else if name = "custom" then generateCustom baseHsl count angle
  else generateRandom baseHsl count rng

/-- `const baseHsl = baseColor ? hexToHsl(baseColor) : randomHsl()`;
the random generator is the oracle at index 0.  The condition is JS
truthiness, so the empty string also falls back to the random draw. -/
def baseHslOf (options : PaletteOptions) (rng : ℕ → Hsl) : Hsl :=
  match options.baseColor with
  | some baseColor => if baseColor = "" then rng 0 else hexToHsl baseColor
  | none => rng 0

/-- The `hslColors.map((hsl, index) => ...)` step: convert each color to
hex and assign its role. -/
def paletteEntries (hslColors : List Hsl) : List PaletteColor :=
  hslColors.mapIdx (fun index hsl =>
    { hex := hslToHex hsl.h hsl.s hsl.l
      hsl := hsl
      role := if index = 0 then "primary" else "accent-" ++ Nat.repr index })

/-- `generatePalette(options)`; the random generator is an explicit
oracle `rng`, drawn at index 0 for a missing base color and at positive
indices inside the random strategy. -/
def generatePalette (options : PaletteOptions) (rng : ℕ → Hsl) : Palette :=
  { harmony := (options.harmony.getD "random").toLower
    count := colorCount options.count
    baseColor := ((paletteEntries (dispatchHarmony
        (options.harmony.getD "random").toLower (baseHslOf options rng)
        (colorCount options.count) (options.angle.getD 45) rng)).headD
          default).hex
    colors := paletteEntries (dispatchHarmony
        (options.harmony.getD "random").toLower (baseHslOf options rng)
        (colorCount options.count) (options.angle.getD 45) rng) }

/-- A fixed dummy oracle for concrete evaluations. -/
def rngZero : ℕ → Hsl := fun _ => ⟨0, 0, 0⟩

/-- The configuration `{harmony: "nonsense"}` of the spec's fallback test. -/
def cfgNonsense : PaletteOptions := { harmony := some "nonsense" }

/-- The configuration `{baseColor: "#3498db", harmony: "triadic"}` of the
spec's first-element identity test. -/
def cfgTriadic : PaletteOptions :=
  { harmony := some "triadic", baseColor := some "#3498db" }

example : (generatePalette cfgNonsense rngZero).harmony
    = "nonsense" := by with_unfolding_all decide
example : ((generatePalette cfgTriadic rngZero).colors.headD default).hex
    = "#3398db" := by with_unfolding_all decide
example : (generatePalette { count := .num 0 } rngZero).colors.length = 5 := by
  with_unfolding_all decide
example : (generatePalette { count := .num 1 } rngZero).colors.length = 2 := by
  with_unfolding_all decide
example : (generatePalette { count := .num 7 } rngZero).colors.length = 6 := by
  with_unfolding_all decide
example : (generatePalette { count := .str "abc" } rngZero).colors.length = 5 := by
  with_unfolding_all decide

/-! ## Claim C7: hue normalization -/

/-- C7: for every (rational) number `x`, `normalizeHue x` lies in
`[0, 360)` and `normalizeHue x = normalizeHue (x + 360)`; the double
modulo handles negative inputs correctly. -/
theorem normalizeHue_mem_Ico_and_periodic (x : ℚ) :
    (0 ≤ normalizeHue x ∧ normalizeHue x < 360) ∧
      normalizeHue x = normalizeHue (x + 360) :=
  ⟨⟨normalizeHue_nonneg x, normalizeHue_lt_360 x⟩,
    (normalizeHue_add_360 x).symm⟩

/-! ## Claim C10: `hexToRgb` is total with byte-ranged channels -/

theorem maskByte_nonneg (a : ℤ) : 0 ≤ maskByte a := by
  unfold maskByte
  omega

theorem maskByte_le (a : ℤ) : maskByte a ≤ 255 := by
  unfold maskByte
  omega

/-- C10: on every input string, `hexToRgb` returns (it is a total
function) and each channel is an integer in `[0, 255]`: the shift-and-
mask extraction coerces every parse result, `NaN` included, into that
range. -/
theorem hexToRgb_channels_bounded (s : String) :
    (∃ k : ℤ, (hexToRgb s).r = (k : ℚ) ∧ 0 ≤ k ∧ k ≤ 255) ∧
    (∃ k : ℤ, (hexToRgb s).g = (k : ℚ) ∧ 0 ≤ k ∧ k ≤ 255) ∧
    (∃ k : ℤ, (hexToRgb s).b = (k : ℚ) ∧ 0 ≤ k ∧ k ≤ 255) := by
  unfold hexToRgb
  refine ⟨⟨_, rfl, ?_, ?_⟩, ⟨_, rfl, ?_, ?_⟩, ⟨_, rfl, ?_, ?_⟩⟩ <;>
    first
      | exact maskByte_nonneg _
      | exact maskByte_le _

/-! ## Parsing of well-formed hex color strings -/

/-- The hex digit character of value `v < 16`, in the requested letter
case; as `v` and `upper` range over all values these are exactly the
22 hex digit characters. -/
def hexChar (v : ℕ) (upper : Bool) : Char :=
  if upper then (Nat.digitChar v).toUpper else Nat.digitChar v

/-- Hex digit characters read back as their value, lowercase to their
canonical (lowercase) spelling, and are none of the characters with a
special meaning in `parseInt` or `hexToRgb`. -/
theorem hexChar_spec : ∀ v : ℕ, v < 16 → ∀ u : Bool,
    hexDigitVal? (hexChar v u) = some v ∧
    Char.toLower (hexChar v u) = Nat.digitChar v ∧
    isJsSpace (hexChar v u) = false ∧
    hexChar v u ≠ 'x' ∧ hexChar v u ≠ 'X' ∧ hexChar v u ≠ '-' ∧
    hexChar v u ≠ '+' ∧ hexChar v u ≠ '#' := by
  with_unfolding_all decide

/-- `readDigits` on a nonempty all-digit list folds up the whole list. -/
theorem readDigits_eq_foldl (base : ℤ) (dig? : Char → Option ℕ) (sgn : ℤ)
    (s : List Char) (hne : s ≠ []) (hall : ∀ c ∈ s, (dig? c).isSome) :
    readDigits base dig? sgn s =
      some (sgn * s.foldl (fun a c => base * a + ((dig? c).getD 0 : ℤ)) 0) := by
  unfold readDigits
  rw [List.takeWhile_eq_self_iff.mpr hall]
  simp [List.isEmpty_iff, hne]

/-- A 6-hex-digit color string, with or without a leading `#`. -/
def hexStr (withHash : Bool) (ds : List Char) : String :=
  String.mk ((if withHash then ['#'] else []) ++ ds)

/-- `hexToRgb` on a well-formed 6-hex-digit string returns the three
byte values encoded by the three digit pairs. -/
theorem hexToRgb_valid (withHash u0 u1 u2 u3 u4 u5 : Bool)
    (v0 v1 v2 v3 v4 v5 : ℕ)
    (hv0 : v0 < 16) (hv1 : v1 < 16) (hv2 : v2 < 16) (hv3 : v3 < 16)
    (hv4 : v4 < 16) (hv5 : v5 < 16) :
    hexToRgb (hexStr withHash
        [hexChar v0 u0, hexChar v1 u1, hexChar v2 u2,
          hexChar v3 u3, hexChar v4 u4, hexChar v5 u5]) =
      ⟨((16 * v0 + v1 : ℕ) : ℚ), ((16 * v2 + v3 : ℕ) : ℚ),
        ((16 * v4 + v5 : ℕ) : ℚ)⟩ := by
  obtain ⟨hd0, hl0, hs0, hx0, hX0, hm0, hp0, hh0⟩ := hexChar_spec v0 hv0 u0
  obtain ⟨hd1, hl1, hs1, hx1, hX1, hm1, hp1, hh1⟩ := hexChar_spec v1 hv1 u1
  obtain ⟨hd2, hl2, hs2, hx2, hX2, hm2, hp2, hh2⟩ := hexChar_spec v2 hv2 u2
  obtain ⟨hd3, hl3, hs3, hx3, hX3, hm3, hp3, hh3⟩ := hexChar_spec v3 hv3 u3
  obtain ⟨hd4, hl4, hs4, hx4, hX4, hm4, hp4, hh4⟩ := hexChar_spec v4 hv4 u4
  obtain ⟨hd5, hl5, hs5, hx5, hX5, hm5, hp5, hh5⟩ := hexChar_spec v5 hv5 u5
  set c0 := hexChar v0 u0
  set c1 := hexChar v1 u1
  set c2 := hexChar v2 u2
  set c3 := hexChar v3 u3
  set c4 := hexChar v4 u4
  set c5 := hexChar v5 u5
  have hstrip :
      stripHash ((if withHash then ['#'] else []) ++ [c0, c1, c2, c3, c4, c5])
        = [c0, c1, c2, c3, c4, c5] := by
    cases withHash
    · simp [stripHash, hh0]
    · simp [stripHash]
  have hall : ∀ c ∈ [c0, c1, c2, c3, c4, c5], (hexDigitVal? c).isSome := by
    intro c hc
    simp only [List.mem_cons, List.not_mem_nil, or_false] at hc
    rcases hc with rfl | rfl | rfl | rfl | rfl | rfl <;>
      simp [hd0, hd1, hd2, hd3, hd4, hd5]
  have hparse : jsParseIntHex [c0, c1, c2, c3, c4, c5] =
      some (1 * (16 * (16 * (16 * (16 * (16 * (16 * 0 + (v0 : ℤ)) + v1)
        + v2) + v3) + v4) + v5)) := by
    have hdw : List.dropWhile isJsSpace [c0, c1, c2, c3, c4, c5]
        = [c0, c1, c2, c3, c4, c5] := by
      rw [List.dropWhile_cons, if_neg (by simp [hs0])]
    have hsgn : jsSign [c0, c1, c2, c3, c4, c5] = 1 := by
      unfold jsSign
      rw [if_neg (by simp [hm0])]
    have hds : jsDropSign [c0, c1, c2, c3, c4, c5] = [c0, c1, c2, c3, c4, c5] := by
      unfold jsDropSign
      rw [if_neg (by simp [hm0, hp0])]
    have h0x : jsStrip0x [c0, c1, c2, c3, c4, c5] = [c0, c1, c2, c3, c4, c5] := by
      unfold jsStrip0x
      rw [if_neg ?hc]
      case hc =>
        simp only [List.take_succ_cons, List.take_zero, List.cons.injEq, and_true]
        push_neg
        exact ⟨fun _ => hx1, fun _ => hX1⟩
    unfold jsParseIntHex
    rw [hdw, hsgn, hds, h0x,
      readDigits_eq_foldl 16 hexDigitVal? _ _ (by simp) hall]
    simp [List.foldl, hd0, hd1, hd2, hd3, hd4, hd5]
  unfold hexToRgb
  rw [show (hexStr withHash [c0, c1, c2, c3, c4, c5]).data
      = (if withHash then ['#'] else []) ++ [c0, c1, c2, c3, c4, c5] from rfl,
    hstrip, hparse]
  have hVint : toInt32 (some (1 * (16 * (16 * (16 * (16 * (16 * (16 * 0
      + (v0 : ℤ)) + v1) + v2) + v3) + v4) + v5)))
      = 1048576 * v0 + 65536 * v1 + 4096 * v2 + 256 * v3 + 16 * v4 + v5 := by
    show (if (1 * (16 * (16 * (16 * (16 * (16 * (16 * 0 + (v0 : ℤ)) + v1)
        + v2) + v3) + v4) + v5)) % 4294967296 < 2147483648 then
        (1 * (16 * (16 * (16 * (16 * (16 * (16 * 0 + (v0 : ℤ)) + v1)
        + v2) + v3) + v4) + v5)) % 4294967296
      else (1 * (16 * (16 * (16 * (16 * (16 * (16 * 0 + (v0 : ℤ)) + v1)
        + v2) + v3) + v4) + v5)) % 4294967296 - 4294967296) = _
    split <;> omega
  rw [hVint]
  have hr : maskByte (shr (1048576 * (v0 : ℤ) + 65536 * v1 + 4096 * v2
      + 256 * v3 + 16 * v4 + v5) 16) = ((16 * v0 + v1 : ℕ) : ℤ) := by
    unfold maskByte shr
    rw [Int.fdiv_eq_ediv _ (by norm_num)]
    have h2 : ((2 : ℤ) ^ (16 : ℕ)) = 65536 := by norm_num
    rw [h2]
    omega
  have hg : maskByte (shr (1048576 * (v0 : ℤ) + 65536 * v1 + 4096 * v2
      + 256 * v3 + 16 * v4 + v5) 8) = ((16 * v2 + v3 : ℕ) : ℤ) := by
    unfold maskByte shr
    rw [Int.fdiv_eq_ediv _ (by norm_num)]
    have h2 : ((2 : ℤ) ^ (8 : ℕ)) = 256 := by norm_num
    rw [h2]
    omega
  have hb : maskByte (1048576 * (v0 : ℤ) + 65536 * v1 + 4096 * v2
      + 256 * v3 + 16 * v4 + v5) = ((16 * v4 + v5 : ℕ) : ℤ) := by
    unfold maskByte
    omega
  simp only [hr, hg, hb, Int.cast_natCast]

/-! ## Printing bytes back to hex -/

theorem jsRound_intCast (k : ℤ) : jsRound (k : ℚ) = k := by
  rw [jsRound_def, show ((k : ℚ) + 1/2) = 1/2 + (k : ℤ) by ring,
    Int.floor_add_int]
  norm_num

/-- `Nat.toDigits 16` with the zero-padding of `toHex` prints a byte as
its two hex digits. -/
theorem toDigitsPair : ∀ k : ℕ, k < 256 →
    (if (Nat.toDigits 16 k).length = 1 then '0' :: Nat.toDigits 16 k
      else Nat.toDigits 16 k)
      = [Nat.digitChar (k / 16), Nat.digitChar (k % 16)] := by
  with_unfolding_all decide

theorem toHexPair_eval (n : ℚ) :
    toHexPair n =
      (if (Nat.toDigits 16 (jsRound (max 0 (min 255 n))).toNat).length = 1
        then '0' :: Nat.toDigits 16 (jsRound (max 0 (min 255 n))).toNat
        else Nat.toDigits 16 (jsRound (max 0 (min 255 n))).toNat) := rfl

/-- `toHexPair` on a byte value prints its two hex digits. -/
theorem toHexPair_byte (k : ℕ) (hk : k < 256) :
    toHexPair ((k : ℕ) : ℚ) = [Nat.digitChar (k / 16), Nat.digitChar (k % 16)] := by
  have h1 : min 255 ((k : ℕ) : ℚ) = ((k : ℕ) : ℚ) := by
    rw [min_eq_right]
    exact_mod_cast Nat.le_of_lt_succ hk
  have h2 : max 0 ((k : ℕ) : ℚ) = ((k : ℕ) : ℚ) := max_eq_right (by positivity)
  rw [toHexPair_eval, h1, h2,
    show ((k : ℕ) : ℚ) = (((k : ℕ) : ℤ) : ℚ) from by norm_cast,
    jsRound_intCast, Int.toNat_natCast]
  exact toDigitsPair k hk

/-! ## Claim C6: hex parse/print round trip -/

/-- C6: for every 6-hex-digit color string, with or without a leading
`#` and in any letter case, printing the channels parsed by `hexToRgb`
with `rgbToHex` yields the input normalized to lowercase with a leading
`#`. -/
theorem rgbToHex_hexToRgb_roundtrip (withHash u0 u1 u2 u3 u4 u5 : Bool)
    (v0 v1 v2 v3 v4 v5 : ℕ)
    (hv0 : v0 < 16) (hv1 : v1 < 16) (hv2 : v2 < 16) (hv3 : v3 < 16)
    (hv4 : v4 < 16) (hv5 : v5 < 16) :
    rgbToHex
        (hexToRgb (hexStr withHash
          [hexChar v0 u0, hexChar v1 u1, hexChar v2 u2,
            hexChar v3 u3, hexChar v4 u4, hexChar v5 u5])).r
        (hexToRgb (hexStr withHash
          [hexChar v0 u0, hexChar v1 u1, hexChar v2 u2,
            hexChar v3 u3, hexChar v4 u4, hexChar v5 u5])).g
        (hexToRgb (hexStr withHash
          [hexChar v0 u0, hexChar v1 u1, hexChar v2 u2,
            hexChar v3 u3, hexChar v4 u4, hexChar v5 u5])).b
      = String.mk ('#' ::
          ([hexChar v0 u0, hexChar v1 u1, hexChar v2 u2,
            hexChar v3 u3, hexChar v4 u4, hexChar v5 u5].map Char.toLower)) := by
  obtain ⟨-, hl0, -, -, -, -, -, -⟩ := hexChar_spec v0 hv0 u0
  obtain ⟨-, hl1, -, -, -, -, -, -⟩ := hexChar_spec v1 hv1 u1
  obtain ⟨-, hl2, -, -, -, -, -, -⟩ := hexChar_spec v2 hv2 u2
  obtain ⟨-, hl3, -, -, -, -, -, -⟩ := hexChar_spec v3 hv3 u3
  obtain ⟨-, hl4, -, -, -, -, -, -⟩ := hexChar_spec v4 hv4 u4
  obtain ⟨-, hl5, -, -, -, -, -, -⟩ := hexChar_spec v5 hv5 u5
  rw [hexToRgb_valid withHash u0 u1 u2 u3 u4 u5 v0 v1 v2 v3 v4 v5
    hv0 hv1 hv2 hv3 hv4 hv5]
  unfold rgbToHex
  rw [show (Rgb.mk ((16 * v0 + v1 : ℕ) : ℚ) ((16 * v2 + v3 : ℕ) : ℚ)
      ((16 * v4 + v5 : ℕ) : ℚ)).r = ((16 * v0 + v1 : ℕ) : ℚ) from rfl,
    show (Rgb.mk ((16 * v0 + v1 : ℕ) : ℚ) ((16 * v2 + v3 : ℕ) : ℚ)
      ((16 * v4 + v5 : ℕ) : ℚ)).g = ((16 * v2 + v3 : ℕ) : ℚ) from rfl,
    show (Rgb.mk ((16 * v0 + v1 : ℕ) : ℚ) ((16 * v2 + v3 : ℕ) : ℚ)
      ((16 * v4 + v5 : ℕ) : ℚ)).b = ((16 * v4 + v5 : ℕ) : ℚ) from rfl,
    toHexPair_byte (16 * v0 + v1) (by omega),
    toHexPair_byte (16 * v2 + v3) (by omega),
    toHexPair_byte (16 * v4 + v5) (by omega)]
  have e0 : (16 * v0 + v1) / 16 = v0 := by omega
  have e1 : (16 * v0 + v1) % 16 = v1 := by omega
  have e2 : (16 * v2 + v3) / 16 = v2 := by omega
  have e3 : (16 * v2 + v3) % 16 = v3 := by omega
  have e4 : (16 * v4 + v5) / 16 = v4 := by omega
  have e5 : (16 * v4 + v5) % 16 = v5 := by omega
  rw [e0, e1, e2, e3, e4, e5]
  simp [hl0, hl1, hl2, hl3, hl4, hl5]

/-- C6 witness: the round trip at the concrete input `"A1b2C3"`
(no hash, mixed case). -/
theorem rgbToHex_hexToRgb_roundtrip_witness :
    rgbToHex (hexToRgb (hexStr false
        [hexChar 10 true, hexChar 1 false, hexChar 11 false,
          hexChar 2 false, hexChar 12 true, hexChar 3 false])).r
      (hexToRgb (hexStr false
        [hexChar 10 true, hexChar 1 false, hexChar 11 false,
          hexChar 2 false, hexChar 12 true, hexChar 3 false])).g
      (hexToRgb (hexStr false
        [hexChar 10 true, hexChar 1 false, hexChar 11 false,
          hexChar 2 false, hexChar 12 true, hexChar 3 false])).b
      = String.mk ('#' ::
          ([hexChar 10 true, hexChar 1 false, hexChar 11 false,
            hexChar 2 false, hexChar 12 true, hexChar 3 false].map Char.toLower)) :=
  rgbToHex_hexToRgb_roundtrip false true false false false true false
    10 1 11 2 12 3 (by decide) (by decide) (by decide) (by decide)
    (by decide) (by decide)

/-! ## Claim C9: contrast color -/

/-- C9: on every 6-hex-digit color string, `getContrastColor` computes
the luminance `(0.299 R + 0.587 G + 0.114 B) / 255` of the parsed
channels and returns `"#000000"` exactly when that luminance exceeds
0.5, otherwise `"#ffffff"`; in particular black maps to white text and
white to black. -/
theorem getContrastColor_spec :
    (∀ (withHash u0 u1 u2 u3 u4 u5 : Bool) (v0 v1 v2 v3 v4 v5 : ℕ),
      v0 < 16 → v1 < 16 → v2 < 16 → v3 < 16 → v4 < 16 → v5 < 16 →
      getContrastColor (hexStr withHash
          [hexChar v0 u0, hexChar v1 u1, hexChar v2 u2,
            hexChar v3 u3, hexChar v4 u4, hexChar v5 u5]) =
        if (0.299 * ((16 * v0 + v1 : ℕ) : ℚ) + 0.587 * ((16 * v2 + v3 : ℕ) : ℚ)
            + 0.114 * ((16 * v4 + v5 : ℕ) : ℚ)) / 255 > 0.5
          then "#000000" else "#ffffff") ∧
    getContrastColor "#000000" = "#ffffff" ∧
    getContrastColor "#ffffff" = "#000000" := by
  refine ⟨?_, by with_unfolding_all decide, by with_unfolding_all decide⟩
  intro withHash u0 u1 u2 u3 u4 u5 v0 v1 v2 v3 v4 v5 hv0 hv1 hv2 hv3 hv4 hv5
  unfold getContrastColor
  rw [hexToRgb_valid withHash u0 u1 u2 u3 u4 u5 v0 v1 v2 v3 v4 v5
    hv0 hv1 hv2 hv3 hv4 hv5]

/-- C9 witness: the formula instance at the string `"#ff0000"`. -/
theorem getContrastColor_spec_witness :
    getContrastColor (hexStr true
        [hexChar 15 false, hexChar 15 false, hexChar 0 false,
          hexChar 0 false, hexChar 0 false, hexChar 0 false]) =
      (if (0.299 * ((16 * 15 + 15 : ℕ) : ℚ) + 0.587 * ((16 * 0 + 0 : ℕ) : ℚ)
          + 0.114 * ((16 * 0 + 0 : ℕ) : ℚ)) / 255 > 0.5
        then "#000000" else "#ffffff") :=
  getContrastColor_spec.1 true false false false false false false
    15 15 0 0 0 0 (by decide) (by decide) (by decide) (by decide)
    (by decide) (by decide)

/-! ## Palette length -/

theorem fillColors_length_aux (step : List Hsl → Hsl) (count : ℕ) :
    ∀ (n : ℕ) (colors : List Hsl), count - colors.length ≤ n →
      count ≤ (fillColors step count colors).length := by
  intro n
  induction n with
  | zero =>
    intro colors hn
    rw [fillColors, dif_neg (by omega)]
    omega
  | succ n ih =>
    intro colors hn
    by_cases hc : colors.length < count
    · rw [fillColors, dif_pos hc]
      exact ih _ (by simp only [List.length_append, List.length_cons,
        List.length_nil]; omega)
    · rw [fillColors, dif_neg hc]
      omega

theorem fillColors_length (step : List Hsl → Hsl) (count : ℕ)
    (colors : List Hsl) : count ≤ (fillColors step count colors).length :=
  fillColors_length_aux step count count colors (by omega)

theorem generateComplementary_length (b : Hsl) (cnt : ℕ) :
    (generateComplementary b cnt).length = cnt := by
  unfold generateComplementary
  rw [List.length_take]
  have := fillColors_length
    (fun colors =>
      let variation := if colors.length % 2 = 0 then b
        else { b with h := normalizeHue (b.h + 180) }
      { h := variation.h
        s := max 20 (variation.s - (colors.length : ℚ) * 10)
        l := min 80 (variation.l + (colors.length : ℚ) * 8) })
    cnt [b, { b with h := normalizeHue (b.h + 180) }]
  omega

theorem generateTriadic_length (b : Hsl) (cnt : ℕ) :
    (generateTriadic b cnt).length = cnt := by
  unfold generateTriadic
  rw [List.length_take]
  have := fillColors_length
    (fun colors =>
      let base := colors.getD (colors.length % 3) default
      { h := base.h, s := max 30 (base.s - 15), l := min 75 (base.l + 15) })
    cnt
    [b, { b with h := normalizeHue (b.h + 120) },
      { b with h := normalizeHue (b.h + 240) }]
  omega

theorem generateSplitComplementary_length (b : Hsl) (cnt : ℕ) :
    (generateSplitComplementary b cnt).length = cnt := by
  unfold generateSplitComplementary
  rw [List.length_take]
  have := fillColors_length
    (fun colors =>
      let base := colors.getD (colors.length % 3) default
      { h := base.h, s := max 30 (base.s - 20), l := min 80 (base.l + 10) })
    cnt
    [b, { b with h := normalizeHue (b.h + 150) },
      { b with h := normalizeHue (b.h + 210) }]
  omega

theorem generateTetradic_length (b : Hsl) (cnt : ℕ) :
    (generateTetradic b cnt).length = cnt := by
  unfold generateTetradic
  rw [List.length_take]
  have := fillColors_length
    (fun colors =>
      let base := colors.getD (colors.length % 4) default
      { h := base.h, s := max 30 (base.s - 15), l := min 75 (base.l + 12) })
    cnt
    [b, { b with h := normalizeHue (b.h + 60) },
      { b with h := normalizeHue (b.h + 180) },
      { b with h := normalizeHue (b.h + 240) }]
  omega

theorem generateSquare_length (b : Hsl) (cnt : ℕ) :
    (generateSquare b cnt).length = cnt := by
  unfold generateSquare
  rw [List.length_take]
  have := fillColors_length
    (fun colors =>
      let base := colors.getD (colors.length % 4) default
      { h := base.h, s := max 30 (base.s - 20), l := min 75 (base.l + 15) })
    cnt
    [b, { b with h := normalizeHue (b.h + 90) },
      { b with h := normalizeHue (b.h + 180) },
      { b with h := normalizeHue (b.h + 270) }]
  omega

theorem generateDoubleComplementary_length (b : Hsl) (cnt : ℕ) :
    (generateDoubleComplementary b cnt).length = cnt := by
  unfold generateDoubleComplementary
  rw [List.length_take]
  have := fillColors_length
    (fun colors =>
      let base := colors.getD (colors.length % 4) default
      { h := base.h, s := max 30 (base.s - 15), l := min 80 (base.l + 10) })
    cnt
    [b, { b with h := normalizeHue (b.h + 30) },
      { b with h := normalizeHue (b.h + 180) },
      { b with h := normalizeHue (b.h + 210) }]
  omega

theorem generateAnalogous_length (b : Hsl) (cnt : ℕ) (h : 1 ≤ cnt) :
    (generateAnalogous b cnt).length = cnt := by
  unfold generateAnalogous
  rw [List.length_take]
  simp only [List.length_cons, List.length_map, List.length_range']
  omega

theorem generateMonochromatic_length (b : Hsl) (cnt : ℕ) (h : 1 ≤ cnt) :
    (generateMonochromatic b cnt).length = cnt := by
  unfold generateMonochromatic
  rw [List.length_take]
  simp only [List.length_cons, List.length_map, List.length_range']
  omega

theorem generateCustom_length (b : Hsl) (cnt : ℕ) (angle : ℚ) (h : 1 ≤ cnt) :
    (generateCustom b cnt angle).length = cnt := by
  unfold generateCustom
  rw [List.length_take]
  simp only [List.length_cons, List.length_map, List.length_range']
  omega

theorem generateRandom_length (b : Hsl) (cnt : ℕ) (rng : ℕ → Hsl)
    (h : 1 ≤ cnt) : (generateRandom b cnt rng).length = cnt := by
  unfold generateRandom
  simp only [List.length_cons, List.length_map, List.length_range']
  omega

theorem dispatchHarmony_length (name : String) (b : Hsl) (cnt : ℕ) (angle : ℚ)
    (rng : ℕ → Hsl) (h : 1 ≤ cnt) :
    (dispatchHarmony name b cnt angle rng).length = cnt := by
  unfold dispatchHarmony
  split_ifs <;>
    first
      | exact generateComplementary_length ..
      | exact generateAnalogous_length _ _ h
      | exact generateTriadic_length ..
      | exact generateSplitComplementary_length ..
      | exact generateTetradic_length ..
      | exact generateMonochromatic_length _ _ h
      | exact generateSquare_length ..
      | exact generateDoubleComplementary_length ..
      | exact generateCustom_length _ _ _ h
      | exact generateRandom_length _ _ _ h

theorem colorCount_mem (c : CountInput) :
    2 ≤ colorCount c ∧ colorCount c ≤ 6 := by
  unfold colorCount
  rcases parseCount c with - | n
  · simp only []
    omega
  · simp only []
    split <;> omega

theorem paletteEntries_length (l : List Hsl) :
    (paletteEntries l).length = l.length := by
  unfold paletteEntries
  exact List.length_mapIdx

theorem generatePalette_colors_length (options : PaletteOptions)
    (rng : ℕ → Hsl) :
    (generatePalette options rng).colors.length = colorCount options.count := by
  show (paletteEntries _).length = _
  rw [paletteEntries_length, dispatchHarmony_length]
  have := colorCount_mem options.count
  omega

/-! ## Claim C4: palette length (amended) -/

/-- C4 (amended): the palette always has `colors.length = count` with
count in `[2,6]`; integer counts are clamped into `[2,6]` except that a
count of 0 is falsy in `parseInt(count) || 5` and therefore falls back
to the default 5 (it does not clamp to 2); count 1 clamps to 2, count 7
clamps to 6, and a non-numeric or missing count defaults to 5. -/
theorem generatePalette_length_spec (options : PaletteOptions)
    (rng : ℕ → Hsl) :
    (2 ≤ (generatePalette options rng).colors.length ∧
      (generatePalette options rng).colors.length ≤ 6 ∧
      (generatePalette options rng).colors.length
        = (generatePalette options rng).count) ∧
    (generatePalette { options with count := .num 0 } rng).colors.length = 5 ∧
    (generatePalette { options with count := .num 1 } rng).colors.length = 2 ∧
    (generatePalette { options with count := .num 7 } rng).colors.length = 6 ∧
    (generatePalette { options with count := .str "abc" } rng).colors.length = 5 ∧
    (generatePalette { options with count := .missing } rng).colors.length = 5 := by
  have hmem := colorCount_mem options.count
  refine ⟨⟨?_, ?_, ?_⟩, ?_, ?_, ?_, ?_, ?_⟩ <;>
    rw [generatePalette_colors_length]
  · omega
  · omega
  · rfl
  · show colorCount (.num 0) = 5
    with_unfolding_all decide
  · show colorCount (.num 1) = 2
    with_unfolding_all decide
  · show colorCount (.num 7) = 6
    with_unfolding_all decide
  · show colorCount (.str "abc") = 5
    with_unfolding_all decide
  · show colorCount .missing = 5
    with_unfolding_all decide

/-- C4 counterexample: a count of 0 yields 5 colors, not the clamped 2
the claim asserts. -/
theorem generatePalette_count_zero_not_two :
    (generatePalette ⟨none, .num 0, none, none⟩ rngZero).colors.length = 5 ∧
    (generatePalette ⟨none, .num 0, none, none⟩ rngZero).colors.length ≠ 2 := by
  constructor <;> with_unfolding_all decide

/-! ## Claims C8, C3, C1: harmony dispatch -/

/-- The nine deterministic (anchor) strategies: every recognized harmony
except `random`. -/
def anchorHarmonies : List String :=
  ["complementary", "analogous", "triadic", "split-complementary",
    "tetradic", "monochromatic", "square", "double-complementary", "custom"]

theorem dispatchHarmony_rng_irrelevant (name : String) (b : Hsl) (cnt : ℕ)
    (angle : ℚ) (rng1 rng2 : ℕ → Hsl) (h : name ∈ anchorHarmonies) :
    dispatchHarmony name b cnt angle rng1 = dispatchHarmony name b cnt angle rng2 := by
  simp only [anchorHarmonies, List.mem_cons, List.not_mem_nil, or_false] at h
  rcases h with rfl | rfl | rfl | rfl | rfl | rfl | rfl | rfl | rfl <;>
    with_unfolding_all rfl

/-- Shared helper: with an explicit base color and an anchor harmony the
palette does not consult the random oracle. -/
theorem generatePalette_rng_congr (options : PaletteOptions)
    (rng1 rng2 : ℕ → Hsl) (bc : String)
    (hbc : options.baseColor = some bc) (hne : bc ≠ "")
    (hmem : (options.harmony.getD "random").toLower ∈ anchorHarmonies) :
    generatePalette options rng1 = generatePalette options rng2 := by
  have hbase : baseHslOf options rng1 = baseHslOf options rng2 := by
    unfold baseHslOf
    rw [hbc]
    show (if bc = "" then rng1 0 else hexToHsl bc)
      = (if bc = "" then rng2 0 else hexToHsl bc)
    rw [if_neg hne, if_neg hne]
  unfold generatePalette
  rw [hbase, dispatchHarmony_rng_irrelevant _ _ _ _ rng1 rng2 hmem]

/-- C8 (amended): for every anchor harmony (each recognized harmony
other than `random`) and every fixed non-empty base color, count and
angle, two calls of `generatePalette` with different random oracles
return identical palettes: those paths never consult the random
generator.  The empty string is excluded because it is falsy in
`baseColor ? hexToHsl(baseColor) : randomHsl()`, so it draws a random
base and the engine is not deterministic there. -/
theorem generatePalette_deterministic (options : PaletteOptions)
    (rng1 rng2 : ℕ → Hsl) (hs bc : String)
    (hh : options.harmony = some hs)
    (hmem : hs.toLower ∈ anchorHarmonies)
    (hbc : options.baseColor = some bc) (hne : bc ≠ "") :
    generatePalette options rng1 = generatePalette options rng2 := by
  apply generatePalette_rng_congr options rng1 rng2 bc hbc hne
  rw [hh]
  exact hmem

/-- C8 witness: the triadic configuration with base `"#3498db"` under
two different oracles. -/
theorem generatePalette_deterministic_witness :
    cfgTriadic.harmony = some "triadic" ∧
    ("triadic" : String).toLower ∈ anchorHarmonies ∧
    cfgTriadic.baseColor = some "#3498db" ∧
    ("#3498db" : String) ≠ "" ∧
    generatePalette cfgTriadic rngZero
      = generatePalette cfgTriadic (fun _ => ⟨7, 8, 9⟩) :=
  ⟨rfl, by with_unfolding_all decide, rfl, by with_unfolding_all decide,
    generatePalette_deterministic cfgTriadic rngZero (fun _ => ⟨7, 8, 9⟩)
      "triadic" "#3498db" rfl (by with_unfolding_all decide) rfl
      (by with_unfolding_all decide)⟩

/-- A second oracle differing from `rngZero` at index 0. -/
def rngAlt : ℕ → Hsl := fun _ => ⟨120, 40, 60⟩

/-- The configuration `{harmony: "triadic", baseColor: ""}`: an anchor
harmony with a falsy base color. -/
def cfgEmptyBase : PaletteOptions :=
  { harmony := some "triadic", baseColor := some "" }

/-- C8 counterexample: with the empty-string base color — falsy in
`baseColor ? hexToHsl(baseColor) : randomHsl()` — the triadic path
draws its base from the random generator, so two calls with different
draws return different palettes even though the harmony is an anchor
strategy and the base color is held fixed. -/
theorem generatePalette_empty_base_nondeterministic :
    cfgEmptyBase.harmony = some "triadic" ∧
    ("triadic" : String).toLower ∈ anchorHarmonies ∧
    cfgEmptyBase.baseColor = some "" ∧
    generatePalette cfgEmptyBase rngZero
      ≠ generatePalette cfgEmptyBase rngAlt := by
  refine ⟨rfl, by with_unfolding_all decide, rfl, ?_⟩
  with_unfolding_all decide

/-- C3 (amended): for `{baseColor: "#3498db", harmony: "triadic"}` the
first palette entry has role `"primary"` but hex `"#3398db"`: the
hex → HSL → hex round trip through integer-rounded HSL is lossy and
does not return the supplied base color unchanged. -/
theorem generatePalette_triadic_first (rng : ℕ → Hsl) :
    ((generatePalette cfgTriadic rng).colors.headD default).hex = "#3398db" ∧
    ((generatePalette cfgTriadic rng).colors.headD default).role = "primary" := by
  have hdet : generatePalette cfgTriadic rng = generatePalette cfgTriadic rngZero :=
    generatePalette_rng_congr cfgTriadic rng rngZero "#3498db" rfl
      (by with_unfolding_all decide) (by with_unfolding_all decide)
  rw [hdet]
  constructor <;> with_unfolding_all decide

/-- C3 counterexample: the first entry's hex is not the supplied
`"#3498db"`. -/
theorem generatePalette_triadic_first_ne :
    ((generatePalette cfgTriadic rngZero).colors.headD default).hex
      ≠ "#3498db" := by
  with_unfolding_all decide

/-- C1 (amended): an unrecognized harmony string falls back to the
random generation strategy — the palette is the one `"random"` would
produce — but the returned `harmony` field is the lowercased input
string, not `"random"`. -/
theorem generatePalette_unknown_harmony (options : PaletteOptions)
    (rng : ℕ → Hsl) (hs : String)
    (hh : options.harmony = some hs)
    (hmem : hs.toLower ∉ HARMONY_TYPES) :
    (generatePalette options rng).harmony = hs.toLower ∧
    (generatePalette options rng).colors
      = (generatePalette { options with harmony := some "random" } rng).colors ∧
    (generatePalette options rng).count
      = (generatePalette { options with harmony := some "random" } rng).count ∧
    (generatePalette options rng).baseColor
      = (generatePalette { options with harmony := some "random" } rng).baseColor := by
  simp only [HARMONY_TYPES, List.mem_cons, List.not_mem_nil, or_false,
    not_or] at hmem
  obtain ⟨h1, h2, h3, h4, h5, h6, h7, h8, h9, h10⟩ := hmem
  have hd : ∀ (b : Hsl) (cnt : ℕ) (angle : ℚ),
      dispatchHarmony hs.toLower b cnt angle rng = generateRandom b cnt rng := by
    intro b cnt angle
    unfold dispatchHarmony
    rw [if_neg h1, if_neg h2, if_neg h3, if_neg h4, if_neg h5, if_neg h6,
      if_neg h7, if_neg h8, if_neg h9]
  have hrand : ("random" : String).toLower = "random" := by
    with_unfolding_all rfl
  have hd2 : ∀ (b : Hsl) (cnt : ℕ) (angle : ℚ),
      dispatchHarmony (("random" : String).toLower) b cnt angle rng
        = generateRandom b cnt rng := by
    intro b cnt angle
    rw [hrand]
    unfold dispatchHarmony
    rw [if_neg (by decide), if_neg (by decide), if_neg (by decide),
      if_neg (by decide), if_neg (by decide), if_neg (by decide),
      if_neg (by decide), if_neg (by decide), if_neg (by decide)]
  have hbase : baseHslOf { options with harmony := some "random" } rng
      = baseHslOf options rng := rfl
  unfold generatePalette
  rw [hh]
  simp only [Option.getD_some, hbase, hd, hd2]
  simp

/-- C1 counterexample: `generatePalette({harmony: "nonsense"})` reports
harmony `"nonsense"`, not `"random"`. -/
theorem generatePalette_nonsense_harmony_ne :
    (generatePalette cfgNonsense rngZero).harmony = "nonsense" ∧
    (generatePalette cfgNonsense rngZero).harmony ≠ "random" := by
  constructor <;> with_unfolding_all decide

/-- C1 witness: the amended statement at `{harmony: "nonsense"}`. -/
theorem generatePalette_unknown_harmony_witness :
    cfgNonsense.harmony = some "nonsense" ∧
    ("nonsense" : String).toLower ∉ HARMONY_TYPES ∧
    ((generatePalette cfgNonsense rngZero).harmony = ("nonsense" : String).toLower ∧
      (generatePalette cfgNonsense rngZero).colors
        = (generatePalette { cfgNonsense with harmony := some "random" } rngZero).colors ∧
      (generatePalette cfgNonsense rngZero).count
        = (generatePalette { cfgNonsense with harmony := some "random" } rngZero).count ∧
      (generatePalette cfgNonsense rngZero).baseColor
        = (generatePalette { cfgNonsense with harmony := some "random" } rngZero).baseColor) :=
  ⟨rfl, by with_unfolding_all decide,
    generatePalette_unknown_harmony cfgNonsense rngZero "nonsense" rfl
      (by with_unfolding_all decide)⟩

/-! ## Claim C2: hue ranges -/

/-- The unrounded hue fraction lies in `[0, 1]`. -/
theorem hueFrac_mem (r g b : ℚ) : 0 ≤ hueFrac r g b ∧ hueFrac r g b ≤ 1 := by
  unfold hueFrac
  by_cases h0 : max r (max g b) = min r (min g b)
  · rw [if_pos h0]
    norm_num
  · rw [if_neg h0]
    have hmxr : r ≤ max r (max g b) := le_max_left _ _
    have hmxg : g ≤ max r (max g b) :=
      le_trans (le_max_left _ _) (le_max_right _ _)
    have hmxb : b ≤ max r (max g b) :=
      le_trans (le_max_right _ _) (le_max_right _ _)
    have hmnr : min r (min g b) ≤ r := min_le_left _ _
    have hmng : min r (min g b) ≤ g :=
      le_trans (min_le_right _ _) (min_le_left _ _)
    have hmnb : min r (min g b) ≤ b :=
      le_trans (min_le_right _ _) (min_le_right _ _)
    have hd : 0 < max r (max g b) - min r (min g b) := by
      rcases lt_or_eq_of_le (le_trans hmnr hmxr) with h | h
      · linarith
      · exact absurd h.symm h0
    split_ifs with hr hgb hg
    · have hX1 : -1 ≤ (g - b) / (max r (max g b) - min r (min g b)) := by
        rw [le_div_iff hd]
        linarith
      have hX2 : (g - b) / (max r (max g b) - min r (min g b)) ≤ 0 := by
        rw [div_le_iff hd]
        nlinarith
      constructor <;> linarith
    · have hX1 : 0 ≤ (g - b) / (max r (max g b) - min r (min g b)) := by
        rw [le_div_iff hd]
        push_neg at hgb
        nlinarith
      have hX2 : (g - b) / (max r (max g b) - min r (min g b)) ≤ 1 := by
        rw [div_le_iff hd]
        linarith
      constructor <;> linarith
    · have hX1 : -1 ≤ (b - r) / (max r (max g b) - min r (min g b)) := by
        rw [le_div_iff hd]
        linarith
      have hX2 : (b - r) / (max r (max g b) - min r (min g b)) ≤ 1 := by
        rw [div_le_iff hd]
        linarith
      constructor <;> linarith
    · have hX1 : -1 ≤ (r - g) / (max r (max g b) - min r (min g b)) := by
        rw [le_div_iff hd]
        linarith
      have hX2 : (r - g) / (max r (max g b) - min r (min g b)) ≤ 1 := by
        rw [div_le_iff hd]
        linarith
      constructor <;> linarith

theorem jsRound_nonneg (x : ℚ) (h : 0 ≤ x) : 0 ≤ jsRound x := by
  rw [jsRound_def]
  exact Int.le_floor.mpr (by push_cast; linarith)

theorem jsRound_le_of_le (x : ℚ) (n : ℤ) (h : x ≤ n) : jsRound x ≤ n := by
  rw [jsRound_def]
  have := Int.floor_lt.mpr (show x + 1/2 < ((n + 1 : ℤ) : ℚ) by push_cast; linarith)
  omega

/-- C2 (amended): for channels in `[0,255]` the hue returned by
`rgbToHsl` lies in the closed interval `[0, 360]` — the value 360 is
attainable, since `Math.round` can round a fraction just below 360 up to
it — while every strategy-generated hue goes through `normalizeHue`,
whose values lie in the half-open `[0, 360)`. -/
theorem rgbToHsl_hue_mem (r g b : ℚ)
    (hr0 : 0 ≤ r) (hr1 : r ≤ 255) (hg0 : 0 ≤ g) (hg1 : g ≤ 255)
    (hb0 : 0 ≤ b) (hb1 : b ≤ 255) :
    (0 ≤ (rgbToHsl r g b).h ∧ (rgbToHsl r g b).h ≤ 360) ∧
    (∀ x : ℚ, 0 ≤ normalizeHue x ∧ normalizeHue x < 360) := by
  refine ⟨?_, fun x => ⟨normalizeHue_nonneg x, normalizeHue_lt_360 x⟩⟩
  obtain ⟨hf0, hf1⟩ := hueFrac_mem (r / 255) (g / 255) (b / 255)
  constructor
  · show (0 : ℚ) ≤ ((jsRound (hueFrac (r / 255) (g / 255) (b / 255) * 360) : ℤ) : ℚ)
    exact_mod_cast jsRound_nonneg _ (by nlinarith)
  · show ((jsRound (hueFrac (r / 255) (g / 255) (b / 255) * 360) : ℤ) : ℚ) ≤ 360
    exact_mod_cast jsRound_le_of_le _ 360 (by push_cast; nlinarith)

/-- C2 counterexample: `rgbToHsl(255, 100, 101)` has hue exactly 360,
violating the claimed strict bound `h < 360`. -/
theorem rgbToHsl_hue_reaches_360 :
    (rgbToHsl 255 100 101).h = 360 ∧ ¬((rgbToHsl 255 100 101).h < 360) := by
  constructor <;> with_unfolding_all decide

/-- C2 witness: the amended bounds at the input `(255, 100, 101)`. -/
theorem rgbToHsl_hue_mem_witness :
    (0 ≤ (rgbToHsl 255 100 101).h ∧ (rgbToHsl 255 100 101).h ≤ 360) ∧
    (∀ x : ℚ, 0 ≤ normalizeHue x ∧ normalizeHue x < 360) :=
  rgbToHsl_hue_mem 255 100 101 (by norm_num) (by norm_num) (by norm_num)
    (by norm_num) (by norm_num) (by norm_num)

/-! ## Claim C5: the RGB → HSL → RGB round trip

The analysis proceeds through the piecewise-linear weight
`wSeg : [0,1] → [0,1]` with `hue2rgb p q t = p + (q - p) * wSeg (wrap t)`:
`wSeg` is 6-Lipschitz (also across the wrap seam), `q` and `p` move by at
most `2Δl + Δs/2` under perturbation of `s` and `l`, and on exact
(unrounded) HSL values the conversion is an exact inverse. -/

/-- The interpolation weight of `hue2rgb` on the wrapped argument:
`hue2rgb p q t = (1 - w) * p + w * q` with `w = wSeg (wrap2 (wrap1 t))`. -/
def wSeg (t : ℚ) : ℚ :=
  if t < 1/6 then 6 * t
  else if t < 1/2 then 1
  else if t < 2/3 then (2/3 - t) * 6
  else 0

theorem hue2rgb_eq_w (p q t : ℚ) :
    hue2rgb p q t = p + (q - p) * wSeg (wrap2 (wrap1 t)) := by
  unfold hue2rgb wSeg
  split_ifs <;> ring

theorem wSeg_mem (t : ℚ) (h0 : 0 ≤ t) (h1 : t ≤ 1) :
    0 ≤ wSeg t ∧ wSeg t ≤ 1 := by
  unfold wSeg
  split_ifs <;> constructor <;> linarith

theorem wSeg_zero : wSeg 0 = 0 := by
  unfold wSeg
  norm_num

theorem wSeg_one : wSeg 1 = 0 := by
  unfold wSeg
  norm_num

theorem wSeg_lip_le (a b : ℚ) (ha0 : 0 ≤ a) (ha1 : a ≤ 1) (hb0 : 0 ≤ b)
    (hb1 : b ≤ 1) (hab : a ≤ b) : |wSeg a - wSeg b| ≤ 6 * (b - a) := by
  unfold wSeg
  split_ifs <;> (rw [abs_sub_le_iff]; constructor <;> linarith)

theorem wSeg_lipschitz (a b : ℚ) (ha0 : 0 ≤ a) (ha1 : a ≤ 1) (hb0 : 0 ≤ b)
    (hb1 : b ≤ 1) : |wSeg a - wSeg b| ≤ 6 * |a - b| := by
  rcases le_total a b with h | h
  · rw [abs_of_nonpos (by linarith : a - b ≤ 0)]
    have := wSeg_lip_le a b ha0 ha1 hb0 hb1 h
    linarith [this]
  · rw [abs_of_nonneg (by linarith : 0 ≤ a - b), abs_sub_comm]
    have := wSeg_lip_le b a hb0 hb1 ha0 ha1 h
    linarith [this]

theorem wrap_mem (t : ℚ) (h0 : -1/3 ≤ t) (h1 : t ≤ 4/3) :
    0 ≤ wrap2 (wrap1 t) ∧ wrap2 (wrap1 t) ≤ 1 := by
  unfold wrap1 wrap2
  split_ifs <;> constructor <;> linarith

theorem wrap_of_mem (t : ℚ) (h0 : 0 ≤ t) (h1 : t ≤ 1) :
    wrap2 (wrap1 t) = t := by
  have hw1 : wrap1 t = t := by
    unfold wrap1
    rw [if_neg (by linarith)]
  rw [hw1]
  unfold wrap2
  rw [if_neg (by linarith)]

theorem wrap_of_neg (t : ℚ) (h0 : -1 ≤ t) (h1 : t < 0) :
    wrap2 (wrap1 t) = t + 1 := by
  have hw1 : wrap1 t = t + 1 := by
    unfold wrap1
    rw [if_pos h1]
  rw [hw1]
  unfold wrap2
  rw [if_neg (by linarith)]

theorem wrap_of_gt (t : ℚ) (h0 : 1 < t) (h1 : t ≤ 2) :
    wrap2 (wrap1 t) = t - 1 := by
  have hw1 : wrap1 t = t := by
    unfold wrap1
    rw [if_neg (by linarith)]
  rw [hw1]
  unfold wrap2
  rw [if_pos (by linarith)]

theorem abs_sub_le_sum (x y : ℚ) : |x - y| ≤ |x| + |y| := by
  calc |x - y| = |x + -y| := by ring_nf
  _ ≤ |x| + |-y| := abs_add _ _
  _ = |x| + |y| := by rw [abs_neg]

/-- The wrapped weight is 6-Lipschitz on `[-1/3, 4/3]` for nearby
arguments (the seam at 0/1 is continuous since `wSeg 0 = wSeg 1 = 0`),
assuming the two arguments are ordered. -/
theorem wrapped_lipschitz_le (a b : ℚ) (ha0 : -1/3 ≤ a) (hb1 : b ≤ 4/3)
    (hab : a ≤ b) (hnear : b - a ≤ 1/2) :
    |wSeg (wrap2 (wrap1 a)) - wSeg (wrap2 (wrap1 b))| ≤ 6 * (b - a) := by
  rcases lt_or_le a 0 with haneg | hanon
  · rcases lt_or_le b 0 with hbneg | hbnon
    · -- both wrap up by one
      rw [wrap_of_neg a (by linarith) haneg, wrap_of_neg b (by linarith) hbneg]
      have h := wSeg_lip_le (a + 1) (b + 1) (by linarith) (by linarith)
        (by linarith) (by linarith) (by linarith)
      calc |wSeg (a + 1) - wSeg (b + 1)| ≤ 6 * ((b + 1) - (a + 1)) := h
      _ = 6 * (b - a) := by ring
    · -- seam at 0: `a` wraps, `b` does not (`b ≤ 1` since `b - a ≤ 1/2`)
      rw [wrap_of_neg a (by linarith) haneg, wrap_of_mem b hbnon (by linarith)]
      have h1 : |wSeg (a + 1)| ≤ 6 * (1 - (a + 1)) := by
        have h := wSeg_lip_le (a + 1) 1 (by linarith) (by linarith)
          (by norm_num) (by norm_num) (by linarith)
        rwa [wSeg_one, sub_zero] at h
      have h2 : |wSeg b| ≤ 6 * b := by
        have h := wSeg_lip_le 0 b (by norm_num) (by norm_num) hbnon
          (by linarith) hbnon
        rw [wSeg_zero, zero_sub, abs_neg] at h
        linarith
      calc |wSeg (a + 1) - wSeg b| ≤ |wSeg (a + 1)| + |wSeg b| :=
          abs_sub_le_sum _ _
      _ ≤ 6 * (1 - (a + 1)) + 6 * b := by linarith
      _ = 6 * (b - a) := by ring
  · rcases le_or_lt b 1 with hble | hbgt
    · -- no wrapping
      rw [wrap_of_mem a hanon (by linarith), wrap_of_mem b (by linarith) hble]
      exact wSeg_lip_le a b hanon (by linarith) (by linarith) hble hab
    · rcases le_or_lt a 1 with hale | hagt
      · -- seam at 1: `b` wraps down, `a` does not
        rw [wrap_of_mem a hanon hale, wrap_of_gt b hbgt (by linarith)]
        have h1 : |wSeg a| ≤ 6 * (1 - a) := by
          have h := wSeg_lip_le a 1 hanon hale (by norm_num) (by norm_num) hale
          rwa [wSeg_one, sub_zero] at h
        have h2 : |wSeg (b - 1)| ≤ 6 * (b - 1) := by
          have h := wSeg_lip_le 0 (b - 1) (by norm_num) (by norm_num)
            (by linarith) (by linarith) (by linarith)
          rw [wSeg_zero, zero_sub, abs_neg] at h
          linarith
        calc |wSeg a - wSeg (b - 1)| ≤ |wSeg a| + |wSeg (b - 1)| :=
            abs_sub_le_sum _ _
        _ ≤ 6 * (1 - a) + 6 * (b - 1) := by linarith
        _ = 6 * (b - a) := by ring
      · -- both wrap down by one
        rw [wrap_of_gt a hagt (by linarith), wrap_of_gt b hbgt (by linarith)]
        have h := wSeg_lip_le (a - 1) (b - 1) (by linarith) (by linarith)
          (by linarith) (by linarith) (by linarith)
        calc |wSeg (a - 1) - wSeg (b - 1)| ≤ 6 * ((b - 1) - (a - 1)) := h
        _ = 6 * (b - a) := by ring

theorem wrapped_lipschitz (a b : ℚ) (ha0 : -1/3 ≤ a) (ha1 : a ≤ 4/3)
    (hb0 : -1/3 ≤ b) (hb1 : b ≤ 4/3) (hnear : |a - b| ≤ 1/2) :
    |wSeg (wrap2 (wrap1 a)) - wSeg (wrap2 (wrap1 b))| ≤ 6 * |a - b| := by
  rcases le_total a b with h | h
  · rw [abs_of_nonpos (by linarith : a - b ≤ 0)] at hnear ⊢
    have := wrapped_lipschitz_le a b ha0 hb1 h (by linarith)
    linarith
  · rw [abs_of_nonneg (by linarith : 0 ≤ a - b)] at hnear ⊢
    rw [abs_sub_comm]
    have := wrapped_lipschitz_le b a hb0 ha1 h (by linarith)
    linarith

theorem qF_zero (l : ℚ) : qF 0 l = l := by
  unfold qF
  split_ifs <;> ring

theorem pF_zero (l : ℚ) : pF 0 l = l := by
  unfold pF
  rw [qF_zero]
  ring

/-- `p` is `q` reflected through mid-lightness: `p s l = 1 - q s (1-l)`. -/
theorem pF_eq_one_sub_qF (s l : ℚ) : pF s l = 1 - qF s (1 - l) := by
  unfold pF qF
  split_ifs with h1 h2 h2
  · exfalso
    linarith
  · ring
  · ring
  · have hl : l = 1/2 := by linarith
    subst hl
    ring

theorem qF_sub_pF_mem (s l : ℚ) (hs0 : 0 ≤ s) (hs1 : s ≤ 1) (hl0 : 0 ≤ l)
    (hl1 : l ≤ 1) : 0 ≤ qF s l - pF s l ∧ qF s l - pF s l ≤ 1 := by
  unfold pF qF
  split_ifs with h <;> constructor <;> nlinarith

/-- Perturbing saturation and lightness moves `q` by at most
`2|Δl| + |Δs|/2`. -/
theorem qF_diff (s1 l1 s2 l2 : ℚ)
    (hs10 : 0 ≤ s1) (hs11 : s1 ≤ 1) (hl10 : 0 ≤ l1) (hl11 : l1 ≤ 1)
    (hs20 : 0 ≤ s2) (hs21 : s2 ≤ 1) (hl20 : 0 ≤ l2) (hl21 : l2 ≤ 1) :
    |qF s2 l2 - qF s1 l1| ≤ 2 * |l2 - l1| + |s2 - s1| / 2 := by
  unfold qF
  split_ifs with h2 h1 h1
  · -- both lightnesses below 1/2
    have hdec : l2 * (1 + s2) - l1 * (1 + s1)
        = (l2 - l1) * (1 + s2) + l1 * (s2 - s1) := by ring
    rw [hdec]
    calc |(l2 - l1) * (1 + s2) + l1 * (s2 - s1)|
        ≤ |(l2 - l1) * (1 + s2)| + |l1 * (s2 - s1)| := abs_add _ _
      _ = |l2 - l1| * |1 + s2| + |l1| * |s2 - s1| := by rw [abs_mul, abs_mul]
      _ ≤ |l2 - l1| * 2 + (1/2) * |s2 - s1| := by
          gcongr
          · rw [abs_le]
            constructor <;> linarith
          · rw [abs_le]
            constructor <;> linarith
      _ = 2 * |l2 - l1| + |s2 - s1| / 2 := by ring
  · -- `l2 < 1/2 ≤ l1`: pass through the crossing point at lightness 1/2
    have hdec : l2 * (1 + s2) - (l1 + s1 - l1 * s1)
        = ((l2 - 1/2) * (1 + s2) + (s2 - s1) / 2) + (1/2 - l1) * (1 - s1) := by
      ring
    rw [hdec]
    have hdl : |l2 - l1| = l1 - l2 := by
      rw [abs_sub_comm, abs_of_nonneg (by linarith)]
    have hA : |(l2 - 1/2) * (1 + s2)| ≤ (1/2 - l2) * 2 := by
      rw [abs_mul, abs_of_nonpos (by linarith : l2 - 1/2 ≤ 0),
        abs_of_nonneg (by linarith : (0:ℚ) ≤ 1 + s2)]
      nlinarith [mul_le_mul_of_nonneg_left
        (show (1:ℚ) + s2 ≤ 2 by linarith)
        (show (0:ℚ) ≤ 1/2 - l2 by linarith)]
    have hB : |(s2 - s1) / 2| = |s2 - s1| / 2 := by
      rw [abs_div]
      norm_num
    have hC : |(1/2 - l1) * (1 - s1)| ≤ (l1 - 1/2) * 1 := by
      rw [abs_mul, abs_of_nonpos (by linarith : (1:ℚ)/2 - l1 ≤ 0),
        abs_of_nonneg (by linarith : (0:ℚ) ≤ 1 - s1)]
      nlinarith [mul_le_mul_of_nonneg_left
        (show (1:ℚ) - s1 ≤ 1 by linarith)
        (show (0:ℚ) ≤ l1 - 1/2 by linarith)]
    have htri1 := abs_add ((l2 - 1/2) * (1 + s2) + (s2 - s1) / 2)
      ((1/2 - l1) * (1 - s1))
    have htri2 := abs_add ((l2 - 1/2) * (1 + s2)) ((s2 - s1) / 2)
    rw [hB] at htri2
    rw [hdl]
    linarith
  · -- `l1 < 1/2 ≤ l2`
    have hdec : (l2 + s2 - l2 * s2) - l1 * (1 + s1)
        = ((l2 - 1/2) * (1 - s2) + (s2 - s1) / 2) + (1/2 - l1) * (1 + s1) := by
      ring
    rw [hdec]
    have hdl : |l2 - l1| = l2 - l1 := abs_of_nonneg (by linarith)
    have hA : |(l2 - 1/2) * (1 - s2)| ≤ (l2 - 1/2) * 1 := by
      rw [abs_mul, abs_of_nonneg (by linarith : (0:ℚ) ≤ l2 - 1/2),
        abs_of_nonneg (by linarith : (0:ℚ) ≤ 1 - s2)]
      nlinarith [mul_le_mul_of_nonneg_left
        (show (1:ℚ) - s2 ≤ 1 by linarith)
        (show (0:ℚ) ≤ l2 - 1/2 by linarith)]
    have hB : |(s2 - s1) / 2| = |s2 - s1| / 2 := by
      rw [abs_div]
      norm_num
    have hC : |(1/2 - l1) * (1 + s1)| ≤ (1/2 - l1) * 2 := by
      rw [abs_mul, abs_of_nonneg (by linarith : (0:ℚ) ≤ 1/2 - l1),
        abs_of_nonneg (by linarith : (0:ℚ) ≤ 1 + s1)]
      nlinarith [mul_le_mul_of_nonneg_left
        (show (1:ℚ) + s1 ≤ 2 by linarith)
        (show (0:ℚ) ≤ 1/2 - l1 by linarith)]
    have htri1 := abs_add ((l2 - 1/2) * (1 - s2) + (s2 - s1) / 2)
      ((1/2 - l1) * (1 + s1))
    have htri2 := abs_add ((l2 - 1/2) * (1 - s2)) ((s2 - s1) / 2)
    rw [hB] at htri2
    rw [hdl]
    linarith
  · -- both lightnesses at or above 1/2
    have hdec : (l2 + s2 - l2 * s2) - (l1 + s1 - l1 * s1)
        = (l2 - l1) * (1 - s2) + (s2 - s1) * (1 - l1) := by ring
    rw [hdec]
    calc |(l2 - l1) * (1 - s2) + (s2 - s1) * (1 - l1)|
        ≤ |(l2 - l1) * (1 - s2)| + |(s2 - s1) * (1 - l1)| := abs_add _ _
      _ = |l2 - l1| * |1 - s2| + |s2 - s1| * |1 - l1| := by
          rw [abs_mul, abs_mul]
      _ ≤ |l2 - l1| * 2 + |s2 - s1| * (1/2) := by
          gcongr
          · rw [abs_le]
            constructor <;> linarith
          · rw [abs_le]
            constructor <;> linarith
      _ = 2 * |l2 - l1| + |s2 - s1| / 2 := by ring

/-- The same perturbation bound for `p`, via `p s l = 1 - q s (1-l)`. -/
theorem pF_diff (s1 l1 s2 l2 : ℚ)
    (hs10 : 0 ≤ s1) (hs11 : s1 ≤ 1) (hl10 : 0 ≤ l1) (hl11 : l1 ≤ 1)
    (hs20 : 0 ≤ s2) (hs21 : s2 ≤ 1) (hl20 : 0 ≤ l2) (hl21 : l2 ≤ 1) :
    |pF s2 l2 - pF s1 l1| ≤ 2 * |l2 - l1| + |s2 - s1| / 2 := by
  rw [pF_eq_one_sub_qF, pF_eq_one_sub_qF]
  have h := qF_diff s1 (1 - l1) s2 (1 - l2) hs10 hs11 (by linarith)
    (by linarith) hs20 hs21 (by linarith) (by linarith)
  have e1 : (1 - qF s2 (1 - l2)) - (1 - qF s1 (1 - l1))
      = -(qF s2 (1 - l2) - qF s1 (1 - l1)) := by ring
  rw [e1, abs_neg]
  have e2 : |(1 - l2) - (1 - l1)| = |l2 - l1| := by
    rw [show (1 - l2) - (1 - l1) = -(l2 - l1) by ring, abs_neg]
  rw [e2] at h
  exact h

theorem wSeg_seg1 (t : ℚ) (h0 : 0 ≤ t) (h1 : t ≤ 1/6) : wSeg t = 6 * t := by
  unfold wSeg
  split_ifs <;> linarith

theorem wSeg_seg2 (t : ℚ) (h0 : 1/6 ≤ t) (h1 : t ≤ 1/2) : wSeg t = 1 := by
  unfold wSeg
  split_ifs <;> linarith

theorem wSeg_seg3 (t : ℚ) (h0 : 1/2 ≤ t) (h1 : t ≤ 2/3) :
    wSeg t = (2/3 - t) * 6 := by
  unfold wSeg
  split_ifs <;> linarith

theorem wSeg_seg4 (t : ℚ) (h0 : 2/3 ≤ t) : wSeg t = 0 := by
  unfold wSeg
  split_ifs <;> linarith

theorem qF_formula_high (M m : ℚ) (h1 : 1 < M + m) (h2 : M + m < 2) :
    qF ((M - m) / (2 - M - m)) ((M + m) / 2) = M := by
  unfold qF
  rw [if_neg (by linarith)]
  have hne : (2 : ℚ) - M - m ≠ 0 := ne_of_gt (by linarith)
  field_simp
  ring

theorem qF_formula_low (M m : ℚ) (h0 : 0 < M + m) (h1 : M + m ≤ 1) :
    qF ((M - m) / (M + m)) ((M + m) / 2) = M := by
  unfold qF
  have hne : M + m ≠ 0 := ne_of_gt h0
  by_cases hl : (M + m) / 2 < 1/2
  · rw [if_pos hl]
    field_simp
    ring
  · rw [if_neg hl]
    have hS : M + m = 1 := le_antisymm h1 (by linarith)
    rw [hS]
    norm_num
    linarith

/-- On the exact (unrounded) saturation and lightness of a triple, the
`q` and `p` of `hslToRgb` recover the maximum and minimum channel. -/
theorem qp_exact (r g b : ℚ)
    (hr0 : 0 ≤ r) (hr1 : r ≤ 1) (hg0 : 0 ≤ g) (hg1 : g ≤ 1)
    (hb0 : 0 ≤ b) (hb1 : b ≤ 1) :
    qF (satFrac r g b) (lumFrac r g b) = max r (max g b) ∧
    pF (satFrac r g b) (lumFrac r g b) = min r (min g b) := by
  have hmxr : r ≤ max r (max g b) := le_max_left _ _
  have hmxg : g ≤ max r (max g b) := le_trans (le_max_left _ _) (le_max_right _ _)
  have hmxb : b ≤ max r (max g b) := le_trans (le_max_right _ _) (le_max_right _ _)
  have hmnr : min r (min g b) ≤ r := min_le_left _ _
  have hmng : min r (min g b) ≤ g := le_trans (min_le_right _ _) (min_le_left _ _)
  have hmnb : min r (min g b) ≤ b := le_trans (min_le_right _ _) (min_le_right _ _)
  have hmle : min r (min g b) ≤ max r (max g b) := le_trans hmnr hmxr
  have hm0 : 0 ≤ min r (min g b) := le_min hr0 (le_min hg0 hb0)
  have hM1 : max r (max g b) ≤ 1 := max_le hr1 (max_le hg1 hb1)
  have hlum : lumFrac r g b = (max r (max g b) + min r (min g b)) / 2 := rfl
  by_cases hc : max r (max g b) = min r (min g b)
  · have hsat : satFrac r g b = 0 := by
      unfold satFrac
      rw [if_pos hc]
    rw [hsat, hlum, qF_zero, pF_zero, hc]
    constructor <;> linarith [hc]
  · have hlt : min r (min g b) < max r (max g b) :=
      lt_of_le_of_ne hmle (fun h => hc h.symm)
    have hsum0 : 0 < max r (max g b) + min r (min g b) := by
      rcases lt_or_eq_of_le hm0 with h | h
      · linarith
      · linarith
    have hsum2 : max r (max g b) + min r (min g b) < 2 := by
      rcases lt_or_eq_of_le hM1 with h | h
      · linarith
      · rcases lt_or_eq_of_le (le_trans hmle hM1) with h2 | h2
        · linarith
        · exfalso
          apply hc
          linarith
    have hq : qF (satFrac r g b) (lumFrac r g b) = max r (max g b) := by
      unfold satFrac
      rw [if_neg hc, hlum]
      by_cases hgt : (max r (max g b) + min r (min g b)) / 2 > 1/2
      · rw [if_pos hgt]
        exact qF_formula_high _ _ (by linarith) hsum2
      · rw [if_neg hgt]
        exact qF_formula_low _ _ hsum0 (by linarith)
    refine ⟨hq, ?_⟩
    unfold pF
    rw [hq, hlum]
    ring

theorem exact_core_A (r g b : ℚ) (hbg : b ≤ g) (hgr : g ≤ r) (hbr : b < r) :
    b + (r - b) * wSeg (wrap2 (wrap1 (((g - b) / (r - b) + 0) / 6 + 1/3))) = r ∧
    b + (r - b) * wSeg (wrap2 (wrap1 (((g - b) / (r - b) + 0) / 6))) = g ∧
    b + (r - b) * wSeg (wrap2 (wrap1 (((g - b) / (r - b) + 0) / 6 - 1/3))) = b := by
  have hd : 0 < r - b := by linarith
  have hdne : r - b ≠ 0 := ne_of_gt hd
  have hx0 : 0 ≤ (g - b) / (r - b) := div_nonneg (by linarith) (le_of_lt hd)
  have hx1 : (g - b) / (r - b) ≤ 1 := by
    rw [div_le_one hd]
    linarith
  refine ⟨?_, ?_, ?_⟩
  · rw [wrap_of_mem _ (by linarith) (by linarith), wSeg_seg2 _ (by linarith) (by linarith)]
    ring
  · rw [wrap_of_mem _ (by linarith) (by linarith), wSeg_seg1 _ (by linarith) (by linarith)]
    field_simp
    ring
  · rw [wrap_of_neg _ (by linarith) (by linarith), wSeg_seg4 _ (by linarith)]
    ring

theorem exact_core_B (r g b : ℚ) (hgb : g < b) (hbr : b ≤ r) :
    g + (r - g) * wSeg (wrap2 (wrap1 (((g - b) / (r - g) + 6) / 6 + 1/3))) = r ∧
    g + (r - g) * wSeg (wrap2 (wrap1 (((g - b) / (r - g) + 6) / 6))) = g ∧
    g + (r - g) * wSeg (wrap2 (wrap1 (((g - b) / (r - g) + 6) / 6 - 1/3))) = b := by
  have hd : 0 < r - g := by linarith
  have hdne : r - g ≠ 0 := ne_of_gt hd
  have hx0 : -1 ≤ (g - b) / (r - g) := by
    rw [le_div_iff hd]
    linarith
  have hx1 : (g - b) / (r - g) < 0 := div_neg_of_neg_of_pos (by linarith) hd
  refine ⟨?_, ?_, ?_⟩
  · rw [wrap_of_gt _ (by linarith) (by linarith), wSeg_seg2 _ (by linarith) (by linarith)]
    ring
  · rw [wrap_of_mem _ (by linarith) (by linarith), wSeg_seg4 _ (by linarith)]
    ring
  · rw [wrap_of_mem _ (by linarith) (by linarith), wSeg_seg3 _ (by linarith) (by linarith)]
    field_simp
    ring

theorem exact_core_C1 (r g b : ℚ) (hbr : b ≤ r) (hrg : r ≤ g) (hbg : b < g) :
    b + (g - b) * wSeg (wrap2 (wrap1 (((b - r) / (g - b) + 2) / 6 + 1/3))) = r ∧
    b + (g - b) * wSeg (wrap2 (wrap1 (((b - r) / (g - b) + 2) / 6))) = g ∧
    b + (g - b) * wSeg (wrap2 (wrap1 (((b - r) / (g - b) + 2) / 6 - 1/3))) = b := by
  have hd : 0 < g - b := by linarith
  have hdne : g - b ≠ 0 := ne_of_gt hd
  have hx0 : -1 ≤ (b - r) / (g - b) := by
    rw [le_div_iff hd]
    linarith
  have hx1 : (b - r) / (g - b) ≤ 0 := by
    rw [div_le_iff hd]
    linarith
  refine ⟨?_, ?_, ?_⟩
  · rw [wrap_of_mem _ (by linarith) (by linarith), wSeg_seg3 _ (by linarith) (by linarith)]
    field_simp
    ring
  · rw [wrap_of_mem _ (by linarith) (by linarith), wSeg_seg2 _ (by linarith) (by linarith)]
    ring
  · by_cases ht : ((b - r) / (g - b) + 2) / 6 - 1/3 < 0
    · rw [wrap_of_neg _ (by linarith) ht, wSeg_seg4 _ (by linarith)]
      ring
    · rw [wrap_of_mem _ (by linarith) (by linarith), wSeg_seg1 _ (by linarith) (by linarith)]
      have hx : (b - r) / (g - b) = 0 := le_antisymm hx1 (by linarith)
      rw [hx]
      ring

theorem exact_core_C2 (r g b : ℚ) (hrb : r < b) (hbg : b ≤ g) :
    r + (g - r) * wSeg (wrap2 (wrap1 (((b - r) / (g - r) + 2) / 6 + 1/3))) = r ∧
    r + (g - r) * wSeg (wrap2 (wrap1 (((b - r) / (g - r) + 2) / 6))) = g ∧
    r + (g - r) * wSeg (wrap2 (wrap1 (((b - r) / (g - r) + 2) / 6 - 1/3))) = b := by
  have hd : 0 < g - r := by linarith
  have hdne : g - r ≠ 0 := ne_of_gt hd
  have hx0 : 0 < (b - r) / (g - r) := div_pos (by linarith) hd
  have hx1 : (b - r) / (g - r) ≤ 1 := by
    rw [div_le_one hd]
    linarith
  refine ⟨?_, ?_, ?_⟩
  · rw [wrap_of_mem _ (by linarith) (by linarith), wSeg_seg4 _ (by linarith)]
    ring
  · rw [wrap_of_mem _ (by linarith) (by linarith), wSeg_seg2 _ (by linarith) (by linarith)]
    ring
  · rw [wrap_of_mem _ (by linarith) (by linarith), wSeg_seg1 _ (by linarith) (by linarith)]
    field_simp
    ring

theorem exact_core_D1 (r g b : ℚ) (hrg : r ≤ g) (hgb : g < b) :
    r + (b - r) * wSeg (wrap2 (wrap1 (((r - g) / (b - r) + 4) / 6 + 1/3))) = r ∧
    r + (b - r) * wSeg (wrap2 (wrap1 (((r - g) / (b - r) + 4) / 6))) = g ∧
    r + (b - r) * wSeg (wrap2 (wrap1 (((r - g) / (b - r) + 4) / 6 - 1/3))) = b := by
  have hd : 0 < b - r := by linarith
  have hdne : b - r ≠ 0 := ne_of_gt hd
  have hx0 : -1 ≤ (r - g) / (b - r) := by
    rw [le_div_iff hd]
    linarith
  have hx1 : (r - g) / (b - r) ≤ 0 := by
    rw [div_le_iff hd]
    linarith
  refine ⟨?_, ?_, ?_⟩
  · rw [wrap_of_mem _ (by linarith) (by linarith), wSeg_seg4 _ (by linarith)]
    ring
  · rw [wrap_of_mem _ (by linarith) (by linarith), wSeg_seg3 _ (by linarith) (by linarith)]
    field_simp
    ring
  · rw [wrap_of_mem _ (by linarith) (by linarith), wSeg_seg2 _ (by linarith) (by linarith)]
    ring

theorem exact_core_D2 (r g b : ℚ) (hgr : g < r) (hrb : r < b) :
    g + (b - g) * wSeg (wrap2 (wrap1 (((r - g) / (b - g) + 4) / 6 + 1/3))) = r ∧
    g + (b - g) * wSeg (wrap2 (wrap1 (((r - g) / (b - g) + 4) / 6))) = g ∧
    g + (b - g) * wSeg (wrap2 (wrap1 (((r - g) / (b - g) + 4) / 6 - 1/3))) = b := by
  have hd : 0 < b - g := by linarith
  have hdne : b - g ≠ 0 := ne_of_gt hd
  have hx0 : 0 < (r - g) / (b - g) := div_pos (by linarith) hd
  have hx1 : (r - g) / (b - g) < 1 := by
    rw [div_lt_one hd]
    linarith
  refine ⟨?_, ?_, ?_⟩
  · rw [wrap_of_gt _ (by linarith) (by linarith), wSeg_seg1 _ (by linarith) (by linarith)]
    field_simp
    ring
  · rw [wrap_of_mem _ (by linarith) (by linarith), wSeg_seg4 _ (by linarith)]
    ring
  · rw [wrap_of_mem _ (by linarith) (by linarith), wSeg_seg2 _ (by linarith) (by linarith)]
    ring

/-- The exact (unrounded) HSL conversion is an exact inverse: feeding the
exact hue, `q` and `p` of a triple through the `hue2rgb` segment function
at the three offsets recovers each channel. -/
theorem exact_channels (r g b : ℚ)
    (hr0 : 0 ≤ r) (hr1 : r ≤ 1) (hg0 : 0 ≤ g) (hg1 : g ≤ 1)
    (hb0 : 0 ≤ b) (hb1 : b ≤ 1) :
    pF (satFrac r g b) (lumFrac r g b) +
      (qF (satFrac r g b) (lumFrac r g b) - pF (satFrac r g b) (lumFrac r g b)) *
        wSeg (wrap2 (wrap1 (hueFrac r g b + 1/3))) = r ∧
    pF (satFrac r g b) (lumFrac r g b) +
      (qF (satFrac r g b) (lumFrac r g b) - pF (satFrac r g b) (lumFrac r g b)) *
        wSeg (wrap2 (wrap1 (hueFrac r g b))) = g ∧
    pF (satFrac r g b) (lumFrac r g b) +
      (qF (satFrac r g b) (lumFrac r g b) - pF (satFrac r g b) (lumFrac r g b)) *
        wSeg (wrap2 (wrap1 (hueFrac r g b - 1/3))) = b := by
  obtain ⟨hq, hp⟩ := qp_exact r g b hr0 hr1 hg0 hg1 hb0 hb1
  rw [hq, hp]
  by_cases hc : max r (max g b) = min r (min g b)
  · have h1 : r ≤ min r (min g b) := hc ▸ le_max_left r (max g b)
    have h2 : g ≤ min r (min g b) :=
      hc ▸ le_trans (le_max_left g b) (le_max_right r (max g b))
    have h3 : b ≤ min r (min g b) :=
      hc ▸ le_trans (le_max_right g b) (le_max_right r (max g b))
    rw [hc]
    simp only [sub_self, zero_mul, add_zero]
    exact ⟨le_antisymm (min_le_left _ _) h1,
           le_antisymm (le_trans (min_le_right _ _) (min_le_left _ _)) h2,
           le_antisymm (le_trans (min_le_right _ _) (min_le_right _ _)) h3⟩
  · by_cases hMr : max r (max g b) = r
    · by_cases hgb : g < b
      · have hbr : b ≤ r := hMr ▸ le_trans (le_max_right g b) (le_max_right r (max g b))
        have hm : min r (min g b) = g := by
          rw [min_eq_left (le_of_lt hgb)]
          exact min_eq_right (by linarith)
        have hhf : hueFrac r g b = ((g - b) / (r - g) + 6) / 6 := by
          unfold hueFrac
          rw [if_neg hc, if_pos hMr, if_pos hgb, hMr, hm]
        rw [hMr, hm, hhf]
        exact exact_core_B r g b hgb hbr
      · have hbg : b ≤ g := le_of_not_lt hgb
        have hgr : g ≤ r := hMr ▸ le_trans (le_max_left g b) (le_max_right r (max g b))
        have hm : min r (min g b) = b := by
          rw [min_eq_right hbg]
          exact min_eq_right (by linarith)
        have hbr : b < r := by
          rcases lt_or_eq_of_le (le_trans hbg hgr) with h | h
          · exact h
          · exact absurd (by rw [hMr, hm, h]) hc
        have hhf : hueFrac r g b = ((g - b) / (r - b) + 0) / 6 := by
          unfold hueFrac
          rw [if_neg hc, if_pos hMr, if_neg hgb, hMr, hm]
        rw [hMr, hm, hhf]
        exact exact_core_A r g b hbg hgr hbr
    · have hrM : r < max r (max g b) :=
        lt_of_le_of_ne (le_max_left _ _) (fun h => hMr h.symm)
      by_cases hMg : max r (max g b) = g
      · have hbg : b ≤ g := hMg ▸ le_trans (le_max_right g b) (le_max_right r (max g b))
        have hrg : r < g := hMg ▸ hrM
        by_cases hbr : b ≤ r
        · have hm : min r (min g b) = b := by
            rw [min_eq_right hbg]
            exact min_eq_right hbr
          have hhf : hueFrac r g b = ((b - r) / (g - b) + 2) / 6 := by
            unfold hueFrac
            rw [if_neg hc, if_neg hMr, if_pos hMg, hMg, hm]
          rw [hMg, hm, hhf]
          exact exact_core_C1 r g b hbr (le_of_lt hrg) (lt_of_le_of_lt hbr hrg)
        · have hrb : r < b := lt_of_not_le hbr
          have hm : min r (min g b) = r := by
            rw [min_eq_right hbg]
            exact min_eq_left (le_of_lt hrb)
          have hhf : hueFrac r g b = ((b - r) / (g - r) + 2) / 6 := by
            unfold hueFrac
            rw [if_neg hc, if_neg hMr, if_pos hMg, hMg, hm]
          rw [hMg, hm, hhf]
          exact exact_core_C2 r g b hrb hbg
      · have hMb : max r (max g b) = b := by
          rcases max_choice r (max g b) with h | h
          · exact absurd h hMr
          · rcases max_choice g b with h2 | h2
            · exact absurd (h.trans h2) hMg
            · exact h.trans h2
        have hgM : g < max r (max g b) :=
          lt_of_le_of_ne (le_trans (le_max_left g b) (le_max_right r (max g b)))
            (fun h => hMg h.symm)
        have hgb' : g < b := hMb ▸ hgM
        have hrb : r < b := hMb ▸ hrM
        by_cases hrg : r ≤ g
        · have hm : min r (min g b) = r := min_eq_left (le_min hrg (le_of_lt hrb))
          have hhf : hueFrac r g b = ((r - g) / (b - r) + 4) / 6 := by
            unfold hueFrac
            rw [if_neg hc, if_neg hMr, if_neg hMg, hMb, hm]
          rw [hMb, hm, hhf]
          exact exact_core_D1 r g b hrg hgb'
        · have hgr : g < r := lt_of_not_le hrg
          have hm : min r (min g b) = g := by
            rw [min_eq_left (le_of_lt hgb')]
            exact min_eq_right (le_of_lt hgr)
          have hhf : hueFrac r g b = ((r - g) / (b - g) + 4) / 6 := by
            unfold hueFrac
            rw [if_neg hc, if_neg hMr, if_neg hMg, hMb, hm]
          rw [hMb, hm, hhf]
          exact exact_core_D2 r g b hgr hrb

theorem jsRound_abs_le (x : ℚ) : |((jsRound x : ℤ) : ℚ) - x| ≤ 1/2 := by
  rw [jsRound_def]
  have h1 := Int.floor_le (x + 1/2)
  have h2 := Int.lt_floor_add_one (x + 1/2)
  rw [abs_le]
  constructor <;> push_cast at h1 h2 ⊢ <;> linarith

/-- A rounded value lands within 5 of an integer it approaches to
within `11/2`. -/
theorem jsRound_near_int (y : ℚ) (c : ℤ) (h : |y - (c : ℚ)| < 11/2) :
    |((jsRound y : ℤ) : ℚ) - (c : ℚ)| ≤ 5 := by
  have h1 := jsRound_abs_le y
  have h2 : |((jsRound y : ℤ) : ℚ) - (c : ℚ)| < 6 := by
    calc |((jsRound y : ℤ) : ℚ) - (c : ℚ)|
        ≤ |((jsRound y : ℤ) : ℚ) - y| + |y - (c : ℚ)| := abs_sub_le _ _ _
      _ < 6 := by linarith
  have h4 : |jsRound y - c| < 6 := by exact_mod_cast h2
  have h5 : |jsRound y - c| ≤ 5 := by omega
  exact_mod_cast h5

theorem qF_sub_pF_le_s (s l : ℚ) (hs0 : 0 ≤ s) (hl0 : 0 ≤ l) (hl1 : l ≤ 1) :
    qF s l - pF s l ≤ s := by
  unfold pF qF
  split_ifs with h <;> nlinarith

theorem lumFrac_mem (r g b : ℚ) (hr0 : 0 ≤ r) (hr1 : r ≤ 1) (hg0 : 0 ≤ g)
    (hg1 : g ≤ 1) (hb0 : 0 ≤ b) (hb1 : b ≤ 1) :
    0 ≤ lumFrac r g b ∧ lumFrac r g b ≤ 1 := by
  unfold lumFrac
  have h1 : 0 ≤ min r (min g b) := le_min hr0 (le_min hg0 hb0)
  have h2 : max r (max g b) ≤ 1 := max_le hr1 (max_le hg1 hb1)
  have h3 : min r (min g b) ≤ max r (max g b) :=
    le_trans (min_le_left _ _) (le_max_left _ _)
  constructor <;> linarith

theorem satFrac_mem (r g b : ℚ) (hr0 : 0 ≤ r) (hr1 : r ≤ 1) (hg0 : 0 ≤ g)
    (hg1 : g ≤ 1) (hb0 : 0 ≤ b) (hb1 : b ≤ 1) :
    0 ≤ satFrac r g b ∧ satFrac r g b ≤ 1 := by
  unfold satFrac
  have h1 : 0 ≤ min r (min g b) := le_min hr0 (le_min hg0 hb0)
  have h2 : max r (max g b) ≤ 1 := max_le hr1 (max_le hg1 hb1)
  have h3 : min r (min g b) ≤ max r (max g b) :=
    le_trans (min_le_left _ _) (le_max_left _ _)
  by_cases hc : max r (max g b) = min r (min g b)
  · rw [if_pos hc]
    norm_num
  · rw [if_neg hc]
    have hlt : min r (min g b) < max r (max g b) :=
      lt_of_le_of_ne h3 (fun h => hc h.symm)
    have hsum0 : 0 < max r (max g b) + min r (min g b) := by
      rcases lt_or_eq_of_le h1 with h | h
      · linarith
      · linarith
    have hsum2 : max r (max g b) + min r (min g b) < 2 := by
      rcases lt_or_eq_of_le h2 with h | h
      · linarith
      · rcases lt_or_eq_of_le (le_trans h3 h2) with h4 | h4
        · linarith
        · exact absurd (by linarith : max r (max g b) = min r (min g b)) hc
    dsimp only
    split_ifs with hl
    · constructor
      · exact div_nonneg (by linarith) (by linarith)
      · rw [div_le_one (by linarith)]
        linarith
    · constructor
      · exact div_nonneg (by linarith) (by linarith)
      · rw [div_le_one (by linarith)]
        linarith

/-- Perturbing the exact HSL fractions by the rounding errors moves each
segment-interpolated channel by at most `1/48`. -/
theorem chroma_channel_bound (he se lE h' s' l' off cN : ℚ)
    (hhe0 : 0 ≤ he) (hhe1 : he ≤ 1)
    (hse0 : 0 ≤ se) (hse1 : se ≤ 1) (hlE0 : 0 ≤ lE) (hlE1 : lE ≤ 1)
    (hh0 : 0 ≤ h') (hh1 : h' ≤ 1) (hs0 : 0 ≤ s') (hs1 : s' ≤ 1)
    (hl0 : 0 ≤ l') (hl1 : l' ≤ 1)
    (hdh : |h' - he| ≤ 1/720) (hds : |s' - se| ≤ 1/200)
    (hdl : |l' - lE| ≤ 1/200)
    (hoff : off = 1/3 ∨ off = 0 ∨ off = -1/3)
    (hexact : pF se lE + (qF se lE - pF se lE) *
      wSeg (wrap2 (wrap1 (he + off))) = cN) :
    |hue2rgb (pF s' l') (qF s' l') (h' + off) - cN| ≤ 1/48 := by
  have hoffb : -1/3 ≤ off ∧ off ≤ 1/3 := by
    rcases hoff with h | h | h <;> rw [h] <;> norm_num
  rw [hue2rgb_eq_w]
  have hnear : |h' + off - (he + off)| ≤ 1/2 := by
    rw [show h' + off - (he + off) = h' - he by ring]
    linarith [hdh]
  have hwlip := wrapped_lipschitz (h' + off) (he + off)
    (by linarith [hoffb.1]) (by linarith [hoffb.2])
    (by linarith [hoffb.1]) (by linarith [hoffb.2]) hnear
  rw [show h' + off - (he + off) = h' - he by ring] at hwlip
  have hw' := wSeg_mem (wrap2 (wrap1 (h' + off)))
    (wrap_mem _ (by linarith [hoffb.1]) (by linarith [hoffb.2])).1
    (wrap_mem _ (by linarith [hoffb.1]) (by linarith [hoffb.2])).2
  have hdq : |qF s' l' - qF se lE| ≤ 1/80 := by
    have := qF_diff se lE s' l' hse0 hse1 hlE0 hlE1 hs0 hs1 hl0 hl1
    linarith [this, hds, hdl]
  have hdp : |pF s' l' - pF se lE| ≤ 1/80 := by
    have := pF_diff se lE s' l' hse0 hse1 hlE0 hlE1 hs0 hs1 hl0 hl1
    linarith [this, hds, hdl]
  have hqp := qF_sub_pF_mem se lE hse0 hse1 hlE0 hlE1
  have hA : |(pF s' l' - pF se lE) * (1 - wSeg (wrap2 (wrap1 (h' + off))))| ≤
      1/80 * (1 - wSeg (wrap2 (wrap1 (h' + off)))) := by
    rw [abs_mul, abs_of_nonneg (by linarith [hw'.2] : (0:ℚ) ≤
      1 - wSeg (wrap2 (wrap1 (h' + off))))]
    exact mul_le_mul_of_nonneg_right hdp (by linarith [hw'.2])
  have hB : |(qF s' l' - qF se lE) * wSeg (wrap2 (wrap1 (h' + off)))| ≤
      1/80 * wSeg (wrap2 (wrap1 (h' + off))) := by
    rw [abs_mul, abs_of_nonneg hw'.1]
    exact mul_le_mul_of_nonneg_right hdq hw'.1
  have hC : |(qF se lE - pF se lE) *
      (wSeg (wrap2 (wrap1 (h' + off))) - wSeg (wrap2 (wrap1 (he + off))))| ≤
      1/120 := by
    rw [abs_mul]
    have h1 : |qF se lE - pF se lE| ≤ 1 := abs_le.mpr ⟨by linarith [hqp.1], hqp.2⟩
    have h2 : |wSeg (wrap2 (wrap1 (h' + off))) - wSeg (wrap2 (wrap1 (he + off)))| ≤
        1/120 := by linarith [hwlip, hdh]
    calc |qF se lE - pF se lE| *
        |wSeg (wrap2 (wrap1 (h' + off))) - wSeg (wrap2 (wrap1 (he + off)))|
        ≤ 1 * (1/120) := mul_le_mul h1 h2 (abs_nonneg _) (by norm_num)
      _ = 1/120 := by norm_num
  rw [show pF s' l' + (qF s' l' - pF s' l') * wSeg (wrap2 (wrap1 (h' + off))) - cN =
      (pF s' l' - pF se lE) * (1 - wSeg (wrap2 (wrap1 (h' + off)))) +
      (qF s' l' - qF se lE) * wSeg (wrap2 (wrap1 (h' + off))) +
      (qF se lE - pF se lE) *
        (wSeg (wrap2 (wrap1 (h' + off))) - wSeg (wrap2 (wrap1 (he + off)))) from by
    rw [← hexact]; ring]
  refine le_trans (abs_add _ _) ?_
  refine le_trans (add_le_add_right (abs_add _ _) _) ?_
  linarith [hA, hB, hC, hw'.1, hw'.2]

theorem achro_center (se lE w cN : ℚ) (hse0 : 0 ≤ se) (hseS : se ≤ 1/200)
    (hlE0 : 0 ≤ lE) (hlE1 : lE ≤ 1) (hw0 : 0 ≤ w) (hw1 : w ≤ 1)
    (hex : pF se lE + (qF se lE - pF se lE) * w = cN) :
    |cN - lE| ≤ 1/400 := by
  have hqpe := qF_sub_pF_mem se lE hse0 (by linarith) hlE0 hlE1
  have hqps := qF_sub_pF_le_s se lE hse0 hlE0 hlE1
  have hkey : cN - lE = (qF se lE - pF se lE) * (w - 1/2) := by
    rw [← hex]
    unfold pF
    ring
  rw [hkey, abs_mul]
  have h1 : |qF se lE - pF se lE| ≤ 1/200 :=
    abs_le.mpr ⟨by linarith [hqpe.1], by linarith⟩
  have h2 : |w - 1/2| ≤ 1/2 := abs_le.mpr ⟨by linarith, by linarith⟩
  calc |qF se lE - pF se lE| * |w - 1/2| ≤ (1/200) * (1/2) :=
        mul_le_mul h1 h2 (abs_nonneg _) (by norm_num)
    _ = 1/400 := by norm_num

theorem achro_channel (lE l' cN : ℚ) (c : ℤ)
    (hdl : |l' - lE| ≤ 1/200) (hclE : |cN - lE| ≤ 1/400)
    (hc255 : cN * 255 = (c : ℚ)) :
    |((jsRound (l' * 255) : ℤ) : ℚ) - (c : ℚ)| ≤ 5 := by
  apply jsRound_near_int
  rw [show l' * 255 - (c : ℚ) = (l' - lE) * 255 + (lE - cN) * 255 from by
    rw [← hc255]; ring]
  refine lt_of_le_of_lt (abs_add _ _) ?_
  rw [abs_mul, abs_mul, show |(255 : ℚ)| = 255 from by norm_num]
  have e2 : |lE - cN| ≤ 1/400 := by rw [abs_sub_comm]; exact hclE
  nlinarith [hdl, e2]

theorem chroma_channel_final (x cN : ℚ) (c : ℤ)
    (hx : |x - cN| ≤ 1/48) (hc255 : cN * 255 = (c : ℚ)) :
    |((jsRound (x * 255) : ℤ) : ℚ) - (c : ℚ)| ≤ 5 := by
  apply jsRound_near_int
  rw [show x * 255 - (c : ℚ) = (x - cN) * 255 from by rw [← hc255]; ring]
  rw [abs_mul, show |(255 : ℚ)| = 255 from by norm_num]
  nlinarith [hx]

/-- Bridge: given the exact HSL fractions, the exact channels, and the
rounded HSL triple, `hslToRgb` lands within 5 of each channel. -/
theorem roundtrip_core (he se lE cR cG cB : ℚ) (r g b : ℤ)
    (hhe0 : 0 ≤ he) (hhe1 : he ≤ 1) (hse0 : 0 ≤ se) (hse1 : se ≤ 1)
    (hlE0 : 0 ≤ lE) (hlE1 : lE ≤ 1)
    (hcr : cR * 255 = (r : ℚ)) (hcg : cG * 255 = (g : ℚ))
    (hcb : cB * 255 = (b : ℚ))
    (hexR : pF se lE + (qF se lE - pF se lE) *
      wSeg (wrap2 (wrap1 (he + 1/3))) = cR)
    (hexG : pF se lE + (qF se lE - pF se lE) *
      wSeg (wrap2 (wrap1 he)) = cG)
    (hexB : pF se lE + (qF se lE - pF se lE) *
      wSeg (wrap2 (wrap1 (he - 1/3))) = cB) :
    |(hslToRgb ((jsRound (he * 360) : ℤ) : ℚ) ((jsRound (se * 100) : ℤ) : ℚ)
        ((jsRound (lE * 100) : ℤ) : ℚ)).r - (r : ℚ)| ≤ 5 ∧
    |(hslToRgb ((jsRound (he * 360) : ℤ) : ℚ) ((jsRound (se * 100) : ℤ) : ℚ)
        ((jsRound (lE * 100) : ℤ) : ℚ)).g - (g : ℚ)| ≤ 5 ∧
    |(hslToRgb ((jsRound (he * 360) : ℤ) : ℚ) ((jsRound (se * 100) : ℤ) : ℚ)
        ((jsRound (lE * 100) : ℤ) : ℚ)).b - (b : ℚ)| ≤ 5 := by
  have hH0 : (0 : ℤ) ≤ jsRound (he * 360) :=
    jsRound_nonneg _ (mul_nonneg hhe0 (by norm_num))
  have hH1 : jsRound (he * 360) ≤ 360 :=
    jsRound_le_of_le _ 360 (by push_cast; linarith)
  have hSi0 : (0 : ℤ) ≤ jsRound (se * 100) :=
    jsRound_nonneg _ (mul_nonneg hse0 (by norm_num))
  have hSi1 : jsRound (se * 100) ≤ 100 :=
    jsRound_le_of_le _ 100 (by push_cast; linarith)
  have hLi0 : (0 : ℤ) ≤ jsRound (lE * 100) :=
    jsRound_nonneg _ (mul_nonneg hlE0 (by norm_num))
  have hLi1 : jsRound (lE * 100) ≤ 100 :=
    jsRound_le_of_le _ 100 (by push_cast; linarith)
  have hh'0 : 0 ≤ ((jsRound (he * 360) : ℤ) : ℚ) / 360 := by
    have h2 : (0 : ℚ) ≤ ((jsRound (he * 360) : ℤ) : ℚ) := by exact_mod_cast hH0
    linarith
  have hh'1 : ((jsRound (he * 360) : ℤ) : ℚ) / 360 ≤ 1 := by
    have h2 : ((jsRound (he * 360) : ℤ) : ℚ) ≤ 360 := by exact_mod_cast hH1
    linarith
  have hs'0 : 0 ≤ ((jsRound (se * 100) : ℤ) : ℚ) / 100 := by
    have h2 : (0 : ℚ) ≤ ((jsRound (se * 100) : ℤ) : ℚ) := by exact_mod_cast hSi0
    linarith
  have hs'1 : ((jsRound (se * 100) : ℤ) : ℚ) / 100 ≤ 1 := by
    have h2 : ((jsRound (se * 100) : ℤ) : ℚ) ≤ 100 := by exact_mod_cast hSi1
    linarith
  have hl'0 : 0 ≤ ((jsRound (lE * 100) : ℤ) : ℚ) / 100 := by
    have h2 : (0 : ℚ) ≤ ((jsRound (lE * 100) : ℤ) : ℚ) := by exact_mod_cast hLi0
    linarith
  have hl'1 : ((jsRound (lE * 100) : ℤ) : ℚ) / 100 ≤ 1 := by
    have h2 : ((jsRound (lE * 100) : ℤ) : ℚ) ≤ 100 := by exact_mod_cast hLi1
    linarith
  have hdh : |((jsRound (he * 360) : ℤ) : ℚ) / 360 - he| ≤ 1/720 := by
    have h1 := jsRound_abs_le (he * 360)
    rw [show ((jsRound (he * 360) : ℤ) : ℚ) / 360 - he
        = (((jsRound (he * 360) : ℤ) : ℚ) - he * 360) / 360 from by ring,
      abs_div, show |(360 : ℚ)| = 360 from by norm_num,
      div_le_iff (by norm_num : (0:ℚ) < 360)]
    linarith
  have hds : |((jsRound (se * 100) : ℤ) : ℚ) / 100 - se| ≤ 1/200 := by
    have h1 := jsRound_abs_le (se * 100)
    rw [show ((jsRound (se * 100) : ℤ) : ℚ) / 100 - se
        = (((jsRound (se * 100) : ℤ) : ℚ) - se * 100) / 100 from by ring,
      abs_div, show |(100 : ℚ)| = 100 from by norm_num,
      div_le_iff (by norm_num : (0:ℚ) < 100)]
    linarith
  have hdl : |((jsRound (lE * 100) : ℤ) : ℚ) / 100 - lE| ≤ 1/200 := by
    have h1 := jsRound_abs_le (lE * 100)
    rw [show ((jsRound (lE * 100) : ℤ) : ℚ) / 100 - lE
        = (((jsRound (lE * 100) : ℤ) : ℚ) - lE * 100) / 100 from by ring,
      abs_div, show |(100 : ℚ)| = 100 from by norm_num,
      div_le_iff (by norm_num : (0:ℚ) < 100)]
    linarith
  unfold hslToRgb
  by_cases hSz : ((jsRound (se * 100) : ℤ) : ℚ) / 100 = 0
  · rw [if_pos hSz]
    have hSz' : jsRound (se * 100) = 0 := by
      have h2 : ((jsRound (se * 100) : ℤ) : ℚ) = 0 := by
        field_simp at hSz
        exact_mod_cast hSz
      exact_mod_cast h2
    have hseS : se ≤ 1/200 := by
      have h1 := jsRound_abs_le (se * 100)
      rw [hSz'] at h1
      rw [abs_le] at h1
      push_cast at h1
      linarith [h1.1]
    have hwR := wSeg_mem (wrap2 (wrap1 (he + 1/3)))
      (wrap_mem _ (by linarith) (by linarith)).1
      (wrap_mem _ (by linarith) (by linarith)).2
    have hwG := wSeg_mem (wrap2 (wrap1 he))
      (wrap_mem _ (by linarith) (by linarith)).1
      (wrap_mem _ (by linarith) (by linarith)).2
    have hwB := wSeg_mem (wrap2 (wrap1 (he - 1/3)))
      (wrap_mem _ (by linarith) (by linarith)).1
      (wrap_mem _ (by linarith) (by linarith)).2
    refine ⟨achro_channel lE _ cR r hdl
        (achro_center se lE _ cR hse0 hseS hlE0 hlE1 hwR.1 hwR.2 hexR) hcr,
      achro_channel lE _ cG g hdl
        (achro_center se lE _ cG hse0 hseS hlE0 hlE1 hwG.1 hwG.2 hexG) hcg,
      achro_channel lE _ cB b hdl
        (achro_center se lE _ cB hse0 hseS hlE0 hlE1 hwB.1 hwB.2 hexB) hcb⟩
  · rw [if_neg hSz]
    have hgR := chroma_channel_bound he se lE
      (((jsRound (he * 360) : ℤ) : ℚ) / 360)
      (((jsRound (se * 100) : ℤ) : ℚ) / 100)
      (((jsRound (lE * 100) : ℤ) : ℚ) / 100) (1/3) cR
      hhe0 hhe1 hse0 hse1 hlE0 hlE1 hh'0 hh'1 hs'0 hs'1 hl'0 hl'1
      hdh hds hdl (Or.inl rfl) hexR
    have hexG' : pF se lE + (qF se lE - pF se lE) *
        wSeg (wrap2 (wrap1 (he + 0))) = cG := by
      rw [add_zero]
      exact hexG
    have hgG := chroma_channel_bound he se lE
      (((jsRound (he * 360) : ℤ) : ℚ) / 360)
      (((jsRound (se * 100) : ℤ) : ℚ) / 100)
      (((jsRound (lE * 100) : ℤ) : ℚ) / 100) 0 cG
      hhe0 hhe1 hse0 hse1 hlE0 hlE1 hh'0 hh'1 hs'0 hs'1 hl'0 hl'1
      hdh hds hdl (Or.inr (Or.inl rfl)) hexG'
    rw [add_zero] at hgG
    have hexB' : pF se lE + (qF se lE - pF se lE) *
        wSeg (wrap2 (wrap1 (he + -1/3))) = cB := by
      rw [show he + -1/3 = he - 1/3 from by ring]
      exact hexB
    have hgB := chroma_channel_bound he se lE
      (((jsRound (he * 360) : ℤ) : ℚ) / 360)
      (((jsRound (se * 100) : ℤ) : ℚ) / 100)
      (((jsRound (lE * 100) : ℤ) : ℚ) / 100) (-1/3) cB
      hhe0 hhe1 hse0 hse1 hlE0 hlE1 hh'0 hh'1 hs'0 hs'1 hl'0 hl'1
      hdh hds hdl (Or.inr (Or.inr rfl)) hexB'
    rw [show ((jsRound (he * 360) : ℤ) : ℚ) / 360 + -1/3
        = ((jsRound (he * 360) : ℤ) : ℚ) / 360 - 1/3 from by ring] at hgB
    exact ⟨chroma_channel_final _ cR r hgR hcr,
      chroma_channel_final _ cG g hgG hcg,
      chroma_channel_final _ cB b hgB hcb⟩

/-- C5 (amended): for every RGB triple with integer channels in
`[0,255]`, composing `rgbToHsl` then `hslToRgb` yields channels that
each differ from the original by at most 5 (not 1: the hue, saturation
and lightness are rounded to whole degrees/percent before conversion
back, and the accumulated error reaches 5, e.g. at `(2,228,230)`). -/
theorem rgbToHsl_hslToRgb_roundtrip (r g b : ℤ)
    (hr0 : 0 ≤ r) (hr1 : r ≤ 255) (hg0 : 0 ≤ g) (hg1 : g ≤ 255)
    (hb0 : 0 ≤ b) (hb1 : b ≤ 255) :
    |(hslToRgb (rgbToHsl (r : ℚ) (g : ℚ) (b : ℚ)).h
        (rgbToHsl (r : ℚ) (g : ℚ) (b : ℚ)).s
        (rgbToHsl (r : ℚ) (g : ℚ) (b : ℚ)).l).r - (r : ℚ)| ≤ 5 ∧
    |(hslToRgb (rgbToHsl (r : ℚ) (g : ℚ) (b : ℚ)).h
        (rgbToHsl (r : ℚ) (g : ℚ) (b : ℚ)).s
        (rgbToHsl (r : ℚ) (g : ℚ) (b : ℚ)).l).g - (g : ℚ)| ≤ 5 ∧
    |(hslToRgb (rgbToHsl (r : ℚ) (g : ℚ) (b : ℚ)).h
        (rgbToHsl (r : ℚ) (g : ℚ) (b : ℚ)).s
        (rgbToHsl (r : ℚ) (g : ℚ) (b : ℚ)).l).b - (b : ℚ)| ≤ 5 := by
  have hr0' : (0 : ℚ) ≤ (r : ℚ) := by exact_mod_cast hr0
  have hr1' : (r : ℚ) ≤ 255 := by exact_mod_cast hr1
  have hg0' : (0 : ℚ) ≤ (g : ℚ) := by exact_mod_cast hg0
  have hg1' : (g : ℚ) ≤ 255 := by exact_mod_cast hg1
  have hb0' : (0 : ℚ) ≤ (b : ℚ) := by exact_mod_cast hb0
  have hb1' : (b : ℚ) ≤ 255 := by exact_mod_cast hb1
  have hrN0 : 0 ≤ (r : ℚ) / 255 := by linarith
  have hrN1 : (r : ℚ) / 255 ≤ 1 := by linarith
  have hgN0 : 0 ≤ (g : ℚ) / 255 := by linarith
  have hgN1 : (g : ℚ) / 255 ≤ 1 := by linarith
  have hbN0 : 0 ≤ (b : ℚ) / 255 := by linarith
  have hbN1 : (b : ℚ) / 255 ≤ 1 := by linarith
  obtain ⟨hex1, hex2, hex3⟩ := exact_channels ((r : ℚ) / 255) ((g : ℚ) / 255)
    ((b : ℚ) / 255) hrN0 hrN1 hgN0 hgN1 hbN0 hbN1
  have hfh : (rgbToHsl (r : ℚ) (g : ℚ) (b : ℚ)).h
      = ((jsRound (hueFrac ((r : ℚ) / 255) ((g : ℚ) / 255) ((b : ℚ) / 255)
        * 360) : ℤ) : ℚ) := rfl
  have hfs : (rgbToHsl (r : ℚ) (g : ℚ) (b : ℚ)).s
      = ((jsRound (satFrac ((r : ℚ) / 255) ((g : ℚ) / 255) ((b : ℚ) / 255)
        * 100) : ℤ) : ℚ) := rfl
  have hfl : (rgbToHsl (r : ℚ) (g : ℚ) (b : ℚ)).l
      = ((jsRound (lumFrac ((r : ℚ) / 255) ((g : ℚ) / 255) ((b : ℚ) / 255)
        * 100) : ℤ) : ℚ) := rfl
  rw [hfh, hfs, hfl]
  exact roundtrip_core
    (hueFrac ((r : ℚ) / 255) ((g : ℚ) / 255) ((b : ℚ) / 255))
    (satFrac ((r : ℚ) / 255) ((g : ℚ) / 255) ((b : ℚ) / 255))
    (lumFrac ((r : ℚ) / 255) ((g : ℚ) / 255) ((b : ℚ) / 255))
    ((r : ℚ) / 255) ((g : ℚ) / 255) ((b : ℚ) / 255) r g b
    (hueFrac_mem _ _ _).1 (hueFrac_mem _ _ _).2
    (satFrac_mem _ _ _ hrN0 hrN1 hgN0 hgN1 hbN0 hbN1).1
    (satFrac_mem _ _ _ hrN0 hrN1 hgN0 hgN1 hbN0 hbN1).2
    (lumFrac_mem _ _ _ hrN0 hrN1 hgN0 hgN1 hbN0 hbN1).1
    (lumFrac_mem _ _ _ hrN0 hrN1 hgN0 hgN1 hbN0 hbN1).2
    (div_mul_cancel₀ _ (by norm_num)) (div_mul_cancel₀ _ (by norm_num))
    (div_mul_cancel₀ _ (by norm_num)) hex1 hex2 hex3

/-- C5 witness: the bound 5 is realized within the theorem's scope at
the triple `(2, 228, 230)`. -/
theorem rgbToHsl_hslToRgb_roundtrip_witness :
    |(hslToRgb (rgbToHsl ((2 : ℤ) : ℚ) ((228 : ℤ) : ℚ) ((230 : ℤ) : ℚ)).h
        (rgbToHsl ((2 : ℤ) : ℚ) ((228 : ℤ) : ℚ) ((230 : ℤ) : ℚ)).s
        (rgbToHsl ((2 : ℤ) : ℚ) ((228 : ℤ) : ℚ) ((230 : ℤ) : ℚ)).l).r
      - ((2 : ℤ) : ℚ)| ≤ 5 ∧
    |(hslToRgb (rgbToHsl ((2 : ℤ) : ℚ) ((228 : ℤ) : ℚ) ((230 : ℤ) : ℚ)).h
        (rgbToHsl ((2 : ℤ) : ℚ) ((228 : ℤ) : ℚ) ((230 : ℤ) : ℚ)).s
        (rgbToHsl ((2 : ℤ) : ℚ) ((228 : ℤ) : ℚ) ((230 : ℤ) : ℚ)).l).g
      - ((228 : ℤ) : ℚ)| ≤ 5 ∧
    |(hslToRgb (rgbToHsl ((2 : ℤ) : ℚ) ((228 : ℤ) : ℚ) ((230 : ℤ) : ℚ)).h
        (rgbToHsl ((2 : ℤ) : ℚ) ((228 : ℤ) : ℚ) ((230 : ℤ) : ℚ)).s
        (rgbToHsl ((2 : ℤ) : ℚ) ((228 : ℤ) : ℚ) ((230 : ℤ) : ℚ)).l).b
      - ((230 : ℤ) : ℚ)| ≤ 5 :=
  rgbToHsl_hslToRgb_roundtrip 2 228 230 (by decide) (by decide) (by decide)
    (by decide) (by decide) (by decide)

/-- C5 counterexample: at `(2, 228, 230)` the green channel of the
round trip is 223, five away from 228, so the claimed ±1 bound fails. -/
theorem rgbToHsl_hslToRgb_not_within_one :
    ¬ |(hslToRgb (rgbToHsl 2 228 230).h (rgbToHsl 2 228 230).s
        (rgbToHsl 2 228 230).l).g - 228| ≤ 1 := by
  with_unfolding_all decide
